import Mathlib

/-!
# FaceLandmarkVid: the tracking loop of `main` and `visualise_tracking`

A shallow embedding of `exe/FaceLandmarkVid/FaceLandmarkVid.cpp`.

* The program is run against a `World`: what the file system, the capture
  device, the detection engine and the keyboard answer.  A capture that opens
  delivers a finite list of frames; reading past its end leaves
  `captured_image` empty, which is how the frame loop ends.
* Every call that the loop `while (!done)` makes into OpenCV,
  LandmarkDetector, FaceAnalysis and OSC is logged as an `Event`, in program
  order, together with each entry into `visualise_tracking`.  Console output,
  the capture hints set on the not yet opened `cv::VideoCapture` and the unused
  reading of the tick counter at line 361 are not logged.  The start-up of `main` (argument parsing, loading
  of the models) is represented by its results, `Params`.
* `float`/`double` values are exact rationals.  The `int` counters `f_n` and
  `frame_count` are integers: they only count up from -1 and 0, and leave the
  range of `int` only after 2^31 sources or frames.  The conversions to
  `size_t` and to `char` that the source performs are explicit (`to_size_t`,
  `size_minus_one`, `to_char`).
* Reading a `std::vector` or `std::string` out of range is undefined in C++;
  the model stops there with `Outcome.undefined`.
-/

namespace FaceLandmarkVid

/-- A non-empty `cv::Mat` as delivered by the capture. An empty
`captured_image` is the end of the list of frames, never an `Image`. -/
structure Image where
  cols : Nat
  rows : Nat
  channels : Nat
deriving DecidableEq, Repr

/-- The camera parameters `fx, fy, cx, cy` of `main`. -/
structure Intrinsics where
  fx : ℚ
  fy : ℚ
  cx : ℚ
  cy : ℚ
deriving DecidableEq, Repr

/-- What a `cv::VideoCapture` can be constructed from. -/
inductive Source
  | device (index : Int)
  | file (path : String)
deriving DecidableEq, Repr

/-- The values `main` obtains from its arguments through
`FaceModelParameters`, `get_video_input_output_params`, `get_camera_params`
and the loaded `CLNF` model. -/
structure Params where
  files : List String
  depth_directories : List String
  output_video_files : List String
  output_codec : List Char
  device : Int
  fx : ℚ
  fy : ℚ
  cx : ℚ
  cy : ℚ
  quiet_mode : Bool
  eye_model : Bool

/-- The answers of the outside world during one pass through the frame loop:
what `cv::imread` finds for the depth file (if asked; `none` is an empty
image), the value returned by `DetectLandmarksInVideo`, the fields
`detection_success` and `detection_certainty` of `clnf_model` after that
call, and the value returned by `cv::waitKey(1)`. -/
structure Tick where
  depth_file : Option Nat
  detection_success : Bool
  model_success : Bool
  detection_certainty : ℚ
  key : Int
deriving DecidableEq, Repr

/-- The outside world of one run. `capture n src` is the answer to the
`n`-th construction of a `cv::VideoCapture` (counted from 0) from `src`:
`none` when it does not open, otherwise its frames, each with the answers
given while that frame is being processed. -/
structure World where
  tri_cwd : Bool
  tri_parent : Bool
  tri_config : Bool
  au_cwd : Bool
  au_parent : Bool
  au_config : Bool
  capture : Nat → Source → Option (List (Image × Tick))

/-- The calls made by `main` and `visualise_tracking`, with the arguments
that matter to the control loop. -/
inductive Event
  | openCapture (src : Source)
  | openWriter (path : String) (fourcc : List Char) (cols rows : Nat)
  | imread (dir : String) (index : Int)
  | detect (grayscale : Image) (depth : Option Nat)
  | estimateGaze (left : Bool) (cam : Intrinsics)
  | visualise (frame_count : Int) (depth : Option Nat) (cam : Intrinsics)
  | draw
  | getCorrectedPoseWorld (cam : Intrinsics)
  | drawBox (blue green red : ℚ) (thickness : Int) (cam : Intrinsics)
  | drawGaze (cam : Intrinsics)
  | fpsUpdate
  | putText
  | imshow
  | imshowDepth
  | sendFaceData (cam : Intrinsics)
  | addNextFrame (time_stamp : ℚ) (visualise : Bool)
  | sendAUs
  | write
  | reset
deriving DecidableEq, Repr

/-- The mutable local variables of `main` that are live in its loops. -/
structure Locals where
  done : Bool
  f_n : Int
  cam : Intrinsics
  time_stamp : ℚ
  frame_count : Int
deriving DecidableEq, Repr

/-- How the process ends. -/
inductive Outcome
  | exit (code : Int)
  | abort
  | undefined
deriving DecidableEq, Repr

/-- How a piece of the body of `main` ends: control falls through with the
locals `s`, or the process ends. -/
inductive Flow
  | next (s : Locals)
  | stop (o : Outcome)
deriving DecidableEq, Repr

/-- One pass through the body of `while (!done)`: the value of `f_n`
established at its top, the calls made, and how it ends. -/
structure Pass where
  f_n : Int
  events : List Event
  flow : Flow
deriving DecidableEq, Repr

/-- A complete run of `main`. -/
structure Run where
  passes : List Pass
  outcome : Outcome
deriving DecidableEq, Repr

/-- Element `v[i]` of a `std::vector` for an `int` index `i`;
`none` when the access is out of range. -/
def index? {α : Type} (v : List α) (i : Int) : Option α :=
  if 0 ≤ i then v.get? i.toNat else none

/-- Element `s[i]` of a `std::string`: position `size()` holds the
terminating null character, positions beyond it are out of range. -/
def string_at (s : List Char) (i : Nat) : Option Char :=
  if i < s.length then s.get? i
  else if i = s.length then some (Char.ofNat 0)
  else none

/-- Conversion of an `int` to the 64-bit `size_t`. -/
def to_size_t (i : Int) : Int :=
  if i < 0 then i + 2 ^ 64 else i

/-- The value of `files.size() - 1` in 64-bit unsigned arithmetic. -/
def size_minus_one (n : Nat) : Int :=
  if n = 0 then 2 ^ 64 - 1 else (n : Int) - 1

/-- Conversion of the `int` returned by `cv::waitKey` to `char`, as the
residue modulo 256. -/
def to_char (k : Int) : Int :=
  k % 256

/-- Character code of the restart key `r`. -/
def key_r : Int := 114

/-- Character code of the quit key `q`. -/
def key_q : Int := 113

/-- Line 105: `double visualisation_boundary = 0.2`. -/
def visualisation_boundary : ℚ := 1 / 5

/-- Lines 114-120: the certainty clamped to `[-1, 1]` and normalised. -/
def vis_certainty (detection_certainty : ℚ) : ℚ :=
  let v := detection_certainty
  let v := if v > 1 then 1 else v
  let v := if v < -1 then -1 else v
  (v + 1) / (visualisation_boundary + 1)

/-- Line 123: `(int)std::ceil(2.0 * cols / 640.0)`. -/
def box_thickness (cols : Nat) : Int :=
  Int.ceil ((2 * (cols : ℚ)) / 640)

/-- The function `visualise_tracking` (lines 99-165). -/
def visualise_tracking (captured_image : Image) (depth_image : Option Nat)
    (detection_certainty : ℚ) (detection_success eye_model track_gaze quiet_mode : Bool)
    (frame_count : Int) (cam : Intrinsics) : List Event :=
  [Event.visualise frame_count depth_image cam]
  ++ (if detection_certainty < visualisation_boundary then
        [Event.draw, Event.getCorrectedPoseWorld cam,
         Event.drawBox ((1 - vis_certainty detection_certainty) * 255) 0
           (vis_certainty detection_certainty * 255)
           (box_thickness captured_image.cols) cam]
        ++ (if track_gaze && detection_success && eye_model then [Event.drawGaze cam] else [])
      else [])
  ++ (if frame_count % 10 = 0 then [Event.fpsUpdate] else [])
  ++ [Event.putText]
  ++ (if !quiet_mode then
        [Event.imshow] ++ (if depth_image.isSome then [Event.imshowDepth] else [])
      else [])

/-- Lines 197-202: `cx_undefined`. -/
def cx_undefined (p : Params) : Bool :=
  p.cx == 0 || p.cy == 0

/-- Lines 198-206: `fx_undefined`. -/
def fx_undefined (p : Params) : Bool :=
  p.fx == 0 || p.fy == 0

/-- Width of `captured_image`; an empty `cv::Mat` has no columns. -/
def mat_cols (captured_image : Option Image) : Nat :=
  match captured_image with
  | some img => img.cols
  | none => 0

/-- Height of `captured_image`; an empty `cv::Mat` has no rows. -/
def mat_rows (captured_image : Option Image) : Nat :=
  match captured_image with
  | some img => img.rows
  | none => 0

/-- Lines 328-342: the camera parameters after the first frame of a source
has been read. -/
def resolve_camera (p : Params) (cam : Intrinsics) (captured_image : Option Image) : Intrinsics :=
  let cam : Intrinsics :=
    if cx_undefined p then
      { cam with cx := (mat_cols captured_image : ℚ) / 2, cy := (mat_rows captured_image : ℚ) / 2 }
    else cam
  if fx_undefined p then
    let fx : ℚ := 500 * ((mat_cols captured_image : ℚ) / 640)
    let fy : ℚ := 500 * ((mat_rows captured_image : ℚ) / 480)
    let fx : ℚ := (fx + fy) / 2
    { cam with fx := fx, fy := fx }
  else cam

/-- Line 307: `use_depth = !depth_directories.empty()`. -/
def use_depth (p : Params) : Bool :=
  !p.depth_directories.isEmpty

/-- Lines 380-400: the depth image of the current frame. `none` as a result
means that `depth_directories[f_n]` is out of range. -/
def load_depth (p : Params) (s : Locals) (t : Tick) : Option (List Event × Option Nat) :=
  if use_depth p then
    match index? p.depth_directories s.f_n with
    | none => none
    | some dir => some ([Event.imread dir (s.frame_count + 1)], t.depth_file)
  else some ([], none)

/-- Lines 371-378: the grayscale image handed to the detector. -/
def grayscale (captured_image : Image) : Image :=
  if captured_image.channels = 3 then { captured_image with channels := 1 }
  else captured_image

/-- Line 212: `det_parameters.track_gaze = true`. -/
def track_gaze : Bool := true

/-- Lines 402-433: the calls made for the frame `img` once its depth image
is settled, up to the write to the output video. -/
def frame_events (p : Params) (s : Locals) (img : Image) (t : Tick)
    (depth_image : Option Nat) : List Event :=
  [Event.detect (grayscale img) depth_image]
  ++ (if track_gaze && t.detection_success && p.eye_model then
        [Event.estimateGaze true s.cam, Event.estimateGaze false s.cam]
      else [])
  ++ visualise_tracking img depth_image t.detection_certainty t.model_success
       p.eye_model track_gaze p.quiet_mode s.frame_count s.cam
  ++ [Event.sendFaceData s.cam, Event.addNextFrame s.time_stamp (!p.quiet_mode),
      Event.sendAUs]
  ++ (if !p.output_video_files.isEmpty then [Event.write] else [])

/-- Lines 366-454: one pass through the body of
`while (!captured_image.empty())` with `captured_image = img`. -/
def frame_body (p : Params) (s : Locals) (img : Image) (t : Tick) : List Event × Flow :=
  match load_depth p s t with
  | none => ([], Flow.stop Outcome.undefined)
  | some (depth_events, depth_image) =>
    let events : List Event := depth_events ++ frame_events p s img t depth_image
    if to_char t.key = key_r then
      (events ++ [Event.reset], Flow.next { s with frame_count := s.frame_count + 1 })
    else if to_char t.key = key_q then
      (events, Flow.stop (Outcome.exit 0))
    else
      (events, Flow.next { s with frame_count := s.frame_count + 1 })

/-- Lines 364-455: the loop `while (!captured_image.empty())`. The list is
`captured_image` followed by the frames the capture has yet to deliver;
`video_capture >> captured_image` moves to its tail. -/
def frame_loop (p : Params) : Locals → List (Image × Tick) → List Event × Flow
  | s, [] => ([], Flow.next s)
  | s, (img, t) :: rest =>
    match frame_body p s img t with
    | (events, Flow.next s') =>
      let r := frame_loop p s' rest
      (events ++ r.1, r.2)
    | (events, Flow.stop o) => (events, Flow.stop o)

/-- Lines 346-358: construction of the `cv::VideoWriter`. `none` means that
`output_video_files[f_n]` or `output_codec[i]` is out of range. An exception
of the constructor is caught and only reported on the console. -/
def open_writer (p : Params) (s : Locals) (captured_image : Option Image) : Option (List Event) :=
  if !p.output_video_files.isEmpty then
    match index? p.output_video_files s.f_n, string_at p.output_codec 0,
      string_at p.output_codec 1, string_at p.output_codec 2, string_at p.output_codec 3 with
    | some path, some c0, some c1, some c2, some c3 =>
      some [Event.openWriter path [c0, c1, c2, c3] (mat_cols captured_image)
        (mat_rows captured_image)]
    | _, _, _, _, _ => none
  else some []

/-- Lines 293-305: the new value of `f_n`; `none` when `files[f_n]` is out
of range. -/
def next_source (p : Params) (s : Locals) : Option Int :=
  if p.files.length > 0 then
    match index? p.files (s.f_n + 1) with
    | some _ => some (s.f_n + 1)
    | none => none
  else some 0

/-- Lines 462-466: the test that sets `done`. -/
def last_source (p : Params) (s : Locals) : Bool :=
  to_size_t s.f_n == size_minus_one p.files.length || p.files.isEmpty

/-- Lines 293-344: the locals with which the frame loop of a source is
entered: `f_n` is the index `f` of the source, the camera parameters are
resolved against the first frame, and `frame_count` is 0. -/
def frame_loop_entry (p : Params) (s : Locals) (f : Int)
    (captured_image : Option Image) : Locals :=
  { s with f_n := f, cam := resolve_camera p s.cam captured_image, frame_count := 0 }

/-- Lines 457-466: the locals with which a pass leaves the body of
`while (!done)` when its frame loop ended with the locals `s`:
`frame_count = 0`, then `done = true` if this was the last source. -/
def source_exit (p : Params) (s : Locals) : Locals :=
  { s with
    frame_count := 0,
    done := if last_source p { s with frame_count := 0 } then true else s.done }

/-- Lines 291-467: one pass through the body of `while (!done)`, the
`n`-th of the run. -/
def source_body (p : Params) (w : World) (n : Nat) (s : Locals) : Pass :=
  match next_source p s with
  | none => { f_n := s.f_n + 1, events := [], flow := Flow.stop Outcome.undefined }
  | some f =>
    let opened : Event := Event.openCapture (Source.device p.device)
    match w.capture n (Source.device p.device) with
    | none => { f_n := f, events := [opened], flow := Flow.stop Outcome.abort }
    | some frames =>
      let captured_image : Option Image := frames.head?.map Prod.fst
      let s : Locals := frame_loop_entry p s f captured_image
      match open_writer p s captured_image with
      | none => { f_n := f, events := [opened], flow := Flow.stop Outcome.undefined }
      | some writer_events =>
        match frame_loop p s frames with
        | (events, Flow.next s') =>
          { f_n := f, events := opened :: writer_events ++ events ++ [Event.reset],
            flow := Flow.next (source_exit p s') }
        | (events, Flow.stop o) =>
          { f_n := f, events := opened :: writer_events ++ events, flow := Flow.stop o }

/-- Lines 290-469: the loop `while (!done)` followed by `return 0`, started
at its `n`-th pass. `fuel` bounds the number of passes; `none` means it was
exhausted. -/
def source_loop (p : Params) (w : World) : Nat → Nat → Locals → Option Run
  | 0, _, _ => none
  | fuel + 1, n, s =>
    if s.done then some { passes := [], outcome := Outcome.exit 0 }
    else
      let pass := source_body p w n s
      match pass.flow with
      | Flow.next s' =>
        (source_loop p w fuel (n + 1) s').map
          (fun r => { passes := pass :: r.passes, outcome := r.outcome })
      | Flow.stop o => some { passes := [pass], outcome := o }

/-- Lines 192-217: the locals of `main` when the loop is entered. -/
def initial_locals (p : Params) : Locals :=
  { done := false, f_n := -1, cam := { fx := p.fx, fy := p.fy, cx := p.cx, cy := p.cy },
    time_stamp := 0, frame_count := 0 }

/-- The function `main` (lines 168-470), from the point where its arguments
have been read. -/
def main (fuel : Nat) (p : Params) (w : World) : Option Run :=
  if !(w.tri_cwd || w.tri_parent || w.tri_config) then
    some { passes := [], outcome := Outcome.exit 1 }
  else if !(w.au_cwd || w.au_parent || w.au_config) then
    some { passes := [], outcome := Outcome.exit 1 }
  else source_loop p w fuel 0 (initial_locals p)

/-- All calls of a run, in program order. -/
def Run.events (r : Run) : List Event :=
  (r.passes.map Pass.events).flatten

/-- The frame counter with which `visualise_tracking` is entered. -/
def Event.frame_index : Event → Option Int
  | Event.visualise frame_count _ _ => some frame_count
  | _ => none

/-- The frame counters of the frames processed, in order. -/
def frame_indices (events : List Event) : List Int :=
  events.filterMap Event.frame_index

/-- The landmarks of a trace: a capture is opened, a frame is processed
under some frame counter, the detector is reset. -/
inductive Mark
  | opened
  | frame (frame_count : Int)
  | reset
deriving DecidableEq, Repr

/-- The landmark an event stands for, if any. -/
def Event.mark : Event → Option Mark
  | Event.openCapture _ => some Mark.opened
  | Event.visualise frame_count _ _ => some (Mark.frame frame_count)
  | Event.reset => some Mark.reset
  | _ => none

/-- The landmarks of a trace, in order. -/
def marks (events : List Event) : List Mark :=
  events.filterMap Event.mark

/-- The capture source an event opens, if it opens one. -/
def Event.opened_source : Event → Option Source
  | Event.openCapture src => some src
  | _ => none

/-- The capture sources opened, in order. -/
def opened_sources (events : List Event) : List Source :=
  events.filterMap Event.opened_source

/-- The timestamp an event hands to the action-unit analyser, if it is a
call of `AddNextFrame`. -/
def Event.time_stamp : Event → Option ℚ
  | Event.addNextFrame time_stamp _ => some time_stamp
  | _ => none

/-- The timestamps handed to the action-unit analyser, in order. -/
def time_stamps (events : List Event) : List ℚ :=
  events.filterMap Event.time_stamp

/-- An event that neither loads nor carries a depth image: it is not a call
of `cv::imread` nor a display of the depth window, and a call of the detector
or of `visualise_tracking` gets an empty depth image. -/
def Event.depth_free : Event → Bool
  | Event.imread _ _ => false
  | Event.imshowDepth => false
  | Event.detect _ depth => depth.isNone
  | Event.visualise _ depth _ => depth.isNone
  | _ => true

/-- No pass over these frames sees the quit key. -/
def no_quit (frames : List (Image × Tick)) : Prop :=
  ∀ f ∈ frames, to_char f.2.key ≠ key_q

instance (frames : List (Image × Tick)) : Decidable (no_quit frames) :=
  inferInstanceAs (Decidable (∀ f ∈ frames, to_char f.2.key ≠ key_q))

/-- The optional lists that run parallel to `files` have, when given, an
entry for every source, and the codec has the characters `main` reads. -/
def Params.aligned (p : Params) : Prop :=
  (p.depth_directories = [] ∨ p.files.length ≤ p.depth_directories.length) ∧
  (p.output_video_files = [] ∨
    (p.files.length ≤ p.output_video_files.length ∧ 3 ≤ p.output_codec.length))

instance (p : Params) : Decidable p.aligned :=
  inferInstanceAs (Decidable (_ ∧ _))

/-- The depth directory of source `f_n` can be read, if depth is in use. -/
def depth_in_range (p : Params) (f_n : Int) : Prop :=
  p.depth_directories = [] ∨ (index? p.depth_directories f_n).isSome

instance (p : Params) (f_n : Int) : Decidable (depth_in_range p f_n) :=
  inferInstanceAs (Decidable (_ ∨ _))

/-- Every capture opens, delivers its frames, and the quit key is never
pressed. -/
def World.cooperative (w : World) : Prop :=
  ∀ n src, ∃ frames, w.capture n src = some frames ∧ no_quit frames

/-- Both model resource files are found in one of the three places searched
(lines 229-278). -/
def World.resources_found (w : World) : Prop :=
  (w.tri_cwd || w.tri_parent || w.tri_config) = true
  ∧ (w.au_cwd || w.au_parent || w.au_config) = true

instance (w : World) : Decidable w.resources_found :=
  inferInstanceAs (Decidable (_ ∧ _))

/-- The flag `done` with which a pass leaves the loop body, if it does. -/
def Flow.done (f : Flow) : Option Bool :=
  match f with
  | Flow.next s => some s.done
  | Flow.stop _ => none

/-- The frame counter with which a pass leaves the loop body, if it does. -/
def Flow.frame_count (f : Flow) : Option Int :=
  match f with
  | Flow.next s => some s.frame_count
  | Flow.stop _ => none

/-! ## Sample inputs -/

/-- A 640x480 colour frame. -/
def vga_frame : Image :=
  { cols := 640, rows := 480, channels := 3 }

/-- World answers for one frame: no depth file, a successful detection of
certainty `-1/2`, and `key` as the result of `cv::waitKey`. -/
def tick (key : Int) : Tick :=
  { depth_file := none, detection_success := true, model_success := true,
    detection_certainty := -1 / 2, key := key }

/-- A run of `n` frames during which no key is pressed (`cv::waitKey`
returns -1). -/
def idle_frames (n : Nat) : List (Image × Tick) :=
  List.replicate n (vga_frame, tick (-1))

/-- Two input files, nothing else on the command line. -/
def two_files : Params :=
  { files := ["first.avi", "second.avi"]
    depth_directories := []
    output_video_files := []
    output_codec := ['D', 'I', 'V', 'X']
    device := 0
    fx := 0
    fy := 0
    cx := 0
    cy := 0
    quiet_mode := false
    eye_model := true }

/-- One input file. -/
def one_file : Params :=
  { two_files with files := ["video.avi"] }

/-- No input file: the live device is to be used. -/
def no_files : Params :=
  { two_files with files := [] }

/-- All resource files are in the working directory; the first capture
delivers five frames, every later one a single frame. -/
def two_streams : World :=
  { tri_cwd := true
    tri_parent := false
    tri_config := false
    au_cwd := true
    au_parent := false
    au_config := false
    capture := fun n _ => some (if n = 0 then idle_frames 5 else idle_frames 1) }

/-- A machine without a camera: no capture opens. -/
def no_camera : World :=
  { two_streams with capture := fun _ _ => none }

/-- A machine without a camera on which every video file can be read and
holds one frame. -/
def files_without_camera : World :=
  { two_streams with
    capture := fun _ src =>
      match src with
      | Source.file _ => some (idle_frames 1)
      | Source.device _ => none }

/-- A machine whose camera delivers nine frames each time it is opened,
while the first file opened holds five frames and every later one a single
frame. -/
def camera_nine_frames : World :=
  { two_streams with
    capture := fun n src =>
      match src with
      | Source.file _ => some (if n = 0 then idle_frames 5 else idle_frames 1)
      | Source.device _ => some (idle_frames 9) }

/-- Every capture delivers nine frames; the restart key `r` is pressed
while the frame with index 7 is processed. -/
def restart_stream : World :=
  { two_streams with
    capture := fun _ _ => some (idle_frames 7 ++ (vga_frame, tick 114) :: idle_frames 1) }

/-- The locals of `main` in the middle of the first source, after seven
frames of 640x480. -/
def mid_source : Locals :=
  { done := false, f_n := 0, cam := { fx := 500, fy := 500, cx := 320, cy := 240 },
    time_stamp := 0, frame_count := 7 }

/-! ## Basic facts about the embedding -/

theorem to_size_t_eq_mod (i : Int) (h1 : -(2 ^ 31) ≤ i) (h2 : i < 2 ^ 31) :
    to_size_t i = i % 2 ^ 64 := by
  unfold to_size_t
  split_ifs with h <;> omega

theorem size_minus_one_eq_mod (n : Nat) (h : n < 2 ^ 64) :
    size_minus_one n = ((n : Int) - 1) % 2 ^ 64 := by
  unfold size_minus_one
  split_ifs with h0
  · subst h0
    rfl
  · omega

theorem marks_append (a b : List Event) : marks (a ++ b) = marks a ++ marks b := by
  simp [marks]

theorem frame_indices_append (a b : List Event) :
    frame_indices (a ++ b) = frame_indices a ++ frame_indices b := by
  simp [frame_indices]

theorem time_stamps_append (a b : List Event) :
    time_stamps (a ++ b) = time_stamps a ++ time_stamps b := by
  simp [time_stamps]

theorem marks_frame_events (p : Params) (s : Locals) (img : Image) (t : Tick)
    (d : Option Nat) : marks (frame_events p s img t d) = [Mark.frame s.frame_count] := by
  simp only [marks, frame_events, visualise_tracking, List.filterMap_append]
  split_ifs <;> simp [Event.mark]

theorem frame_indices_frame_events (p : Params) (s : Locals) (img : Image) (t : Tick)
    (d : Option Nat) : frame_indices (frame_events p s img t d) = [s.frame_count] := by
  simp only [frame_indices, frame_events, visualise_tracking, List.filterMap_append]
  split_ifs <;> simp [Event.frame_index]

theorem mem_visualise_tracking (img : Image) (d : Option Nat) (c : ℚ)
    (succ eye tg q : Bool) (k : Int) (cam : Intrinsics) (e : Event)
    (he : e ∈ visualise_tracking img d c succ eye tg q k cam) :
    e = Event.visualise k d cam ∨ e = Event.draw ∨ e = Event.getCorrectedPoseWorld cam
    ∨ (c < visualisation_boundary ∧
        e = Event.drawBox ((1 - vis_certainty c) * 255) 0 (vis_certainty c * 255)
          (box_thickness img.cols) cam)
    ∨ e = Event.drawGaze cam ∨ e = Event.fpsUpdate ∨ e = Event.putText ∨ e = Event.imshow
    ∨ (d.isSome = true ∧ e = Event.imshowDepth) := by
  unfold visualise_tracking at he
  generalize vis_certainty c = v at *
  generalize box_thickness img.cols = th at *
  simp only [List.mem_append, List.mem_cons, List.mem_singleton, List.not_mem_nil, or_false] at he
  rcases he with (((he | he) | he) | he) | he
  · exact Or.inl he
  · split_ifs at he with h1 h2
    · simp only [List.mem_append, List.mem_cons, List.mem_singleton, List.not_mem_nil, or_false] at he
      rcases he with (he | he | he) | he
      · exact Or.inr (Or.inl he)
      · exact Or.inr (Or.inr (Or.inl he))
      · exact Or.inr (Or.inr (Or.inr (Or.inl ⟨h1, he⟩)))
      · exact Or.inr (Or.inr (Or.inr (Or.inr (Or.inl he))))
    · simp only [List.mem_append, List.mem_cons, List.mem_singleton, List.not_mem_nil, or_false] at he
      rcases he with (he | he | he)
      · exact Or.inr (Or.inl he)
      · exact Or.inr (Or.inr (Or.inl he))
      · exact Or.inr (Or.inr (Or.inr (Or.inl ⟨h1, he⟩)))
    · exact absurd he (List.not_mem_nil _)
  · split_ifs at he
    · rw [List.mem_singleton] at he
      exact Or.inr (Or.inr (Or.inr (Or.inr (Or.inr (Or.inl he)))))
    · exact absurd he (List.not_mem_nil _)
  · exact Or.inr (Or.inr (Or.inr (Or.inr (Or.inr (Or.inr (Or.inl he))))))
  · split_ifs at he with h1 h2
    · simp only [List.mem_append, List.mem_cons, List.mem_singleton, List.not_mem_nil, or_false] at he
      rcases he with he | he
      · exact Or.inr (Or.inr (Or.inr (Or.inr (Or.inr (Or.inr (Or.inr (Or.inl he)))))))
      · exact Or.inr (Or.inr (Or.inr (Or.inr (Or.inr (Or.inr (Or.inr (Or.inr ⟨h2, he⟩)))))))
    · simp only [List.mem_append, List.mem_cons, List.mem_singleton, List.not_mem_nil, or_false] at he
      exact Or.inr (Or.inr (Or.inr (Or.inr (Or.inr (Or.inr (Or.inr (Or.inl he)))))))
    · exact absurd he (List.not_mem_nil _)

theorem mem_frame_events (p : Params) (s : Locals) (img : Image) (t : Tick)
    (d : Option Nat) (e : Event) (he : e ∈ frame_events p s img t d) :
    e = Event.detect (grayscale img) d ∨ e = Event.estimateGaze true s.cam
    ∨ e = Event.estimateGaze false s.cam
    ∨ e ∈ visualise_tracking img d t.detection_certainty t.model_success p.eye_model
        track_gaze p.quiet_mode s.frame_count s.cam
    ∨ e = Event.sendFaceData s.cam ∨ e = Event.addNextFrame s.time_stamp (!p.quiet_mode)
    ∨ e = Event.sendAUs ∨ e = Event.write := by
  unfold frame_events at he
  simp only [List.mem_append, List.mem_cons, List.mem_singleton, List.not_mem_nil, or_false] at he
  rcases he with (((he | he) | he) | he | he | he) | he
  · exact Or.inl he
  · split_ifs at he
    · simp only [List.mem_cons, List.mem_singleton, List.not_mem_nil, or_false] at he
      rcases he with he | he
      · exact Or.inr (Or.inl he)
      · exact Or.inr (Or.inr (Or.inl he))
    · exact absurd he (List.not_mem_nil _)
  · exact Or.inr (Or.inr (Or.inr (Or.inl he)))
  · exact Or.inr (Or.inr (Or.inr (Or.inr (Or.inl he))))
  · exact Or.inr (Or.inr (Or.inr (Or.inr (Or.inr (Or.inl he)))))
  · exact Or.inr (Or.inr (Or.inr (Or.inr (Or.inr (Or.inr (Or.inl he))))))
  · split_ifs at he
    · rw [List.mem_singleton] at he
      exact Or.inr (Or.inr (Or.inr (Or.inr (Or.inr (Or.inr (Or.inr he))))))
    · exact absurd he (List.not_mem_nil _)

theorem frame_events_time_stamp (p : Params) (s : Locals) (img : Image) (t : Tick)
    (d : Option Nat) (e : Event) (he : e ∈ frame_events p s img t d) (ts : ℚ)
    (hc : e.time_stamp = some ts) : ts = s.time_stamp := by
  rcases mem_frame_events p s img t d e he with h | h | h | h | h | h | h | h
  · subst h; exact absurd hc (by simp [Event.time_stamp])
  · subst h; exact absurd hc (by simp [Event.time_stamp])
  · subst h; exact absurd hc (by simp [Event.time_stamp])
  · rcases mem_visualise_tracking _ _ _ _ _ _ _ _ _ e h with
      h | h | h | ⟨_, h⟩ | h | h | h | h | ⟨_, h⟩ <;>
    · subst h; exact absurd hc (by simp [Event.time_stamp])
  · subst h; exact absurd hc (by simp [Event.time_stamp])
  · subst h; exact (Option.some.inj hc).symm
  · subst h; exact absurd hc (by simp [Event.time_stamp])
  · subst h; exact absurd hc (by simp [Event.time_stamp])

theorem frame_events_depth_free (p : Params) (s : Locals) (img : Image) (t : Tick)
    (e : Event) (he : e ∈ frame_events p s img t none) : e.depth_free = true := by
  rcases mem_frame_events p s img t none e he with h | h | h | h | h | h | h | h
  · subst h; rfl
  · subst h; rfl
  · subst h; rfl
  · rcases mem_visualise_tracking _ _ _ _ _ _ _ _ _ e h with
      h | h | h | ⟨_, h⟩ | h | h | h | h | ⟨h', h⟩
    · subst h; rfl
    · subst h; rfl
    · subst h; rfl
    · subst h; rfl
    · subst h; rfl
    · subst h; rfl
    · subst h; rfl
    · subst h; rfl
    · simp at h'
  · subst h; rfl
  · subst h; rfl
  · subst h; rfl
  · subst h; rfl

theorem frame_events_not_open (p : Params) (s : Locals) (img : Image) (t : Tick)
    (d : Option Nat) (e : Event) (he : e ∈ frame_events p s img t d) :
    e.opened_source = none := by
  rcases mem_frame_events p s img t d e he with h | h | h | h | h | h | h | h
  · subst h; rfl
  · subst h; rfl
  · subst h; rfl
  · rcases mem_visualise_tracking _ _ _ _ _ _ _ _ _ e h with
      h | h | h | ⟨_, h⟩ | h | h | h | h | ⟨_, h⟩ <;>
    · subst h; rfl
  · subst h; rfl
  · subst h; rfl
  · subst h; rfl
  · subst h; rfl

theorem load_depth_cases (p : Params) (s : Locals) (t : Tick) (evs : List Event)
    (d : Option Nat) (h : load_depth p s t = some (evs, d)) :
    (p.depth_directories ≠ [] ∧ d = t.depth_file ∧
        ∃ dir, index? p.depth_directories s.f_n = some dir ∧
          evs = [Event.imread dir (s.frame_count + 1)])
    ∨ (p.depth_directories = [] ∧ evs = [] ∧ d = none) := by
  unfold load_depth at h
  split_ifs at h with hu
  · left
    have hne : p.depth_directories ≠ [] := by
      intro h0
      simp [use_depth, h0] at hu
    cases hdir : index? p.depth_directories s.f_n with
    | none => simp [hdir] at h
    | some dir =>
      simp only [hdir, Option.some.injEq, Prod.mk.injEq] at h
      exact ⟨hne, h.2.symm, dir, rfl, h.1.symm⟩
  · right
    have he : p.depth_directories = [] := by
      cases hp : p.depth_directories with
      | nil => rfl
      | cons a l => simp [use_depth, hp] at hu
    simp only [Option.some.injEq, Prod.mk.injEq] at h
    exact ⟨he, h.1.symm, h.2.symm⟩

theorem frame_body_unfold (p : Params) (s : Locals) (img : Image) (t : Tick)
    (evs : List Event) (d : Option Nat) (h : load_depth p s t = some (evs, d)) :
    frame_body p s img t =
      if to_char t.key = key_r then
        (evs ++ frame_events p s img t d ++ [Event.reset],
          Flow.next { s with frame_count := s.frame_count + 1 })
      else if to_char t.key = key_q then
        (evs ++ frame_events p s img t d, Flow.stop (Outcome.exit 0))
      else
        (evs ++ frame_events p s img t d,
          Flow.next { s with frame_count := s.frame_count + 1 }) := by
  unfold frame_body
  rw [h]

theorem frame_body_undefined (p : Params) (s : Locals) (img : Image) (t : Tick)
    (h : load_depth p s t = none) :
    frame_body p s img t = ([], Flow.stop Outcome.undefined) := by
  unfold frame_body
  rw [h]

theorem frame_body_next (p : Params) (s : Locals) (img : Image) (t : Tick) (s' : Locals)
    (h : (frame_body p s img t).2 = Flow.next s') :
    s' = { s with frame_count := s.frame_count + 1 } := by
  cases hl : load_depth p s t with
  | none => rw [frame_body_undefined p s img t hl] at h; cases h
  | some r =>
    obtain ⟨evs, d⟩ := r
    rw [frame_body_unfold p s img t evs d hl] at h
    split_ifs at h
    · cases h; rfl
    · cases h; rfl

theorem mem_frame_body (p : Params) (s : Locals) (img : Image) (t : Tick) (e : Event)
    (he : e ∈ (frame_body p s img t).1) :
    (p.depth_directories ≠ [] ∧ ∃ dir, e = Event.imread dir (s.frame_count + 1))
    ∨ (∃ d, (p.depth_directories = [] → d = none) ∧ e ∈ frame_events p s img t d)
    ∨ e = Event.reset := by
  cases hl : load_depth p s t with
  | none => rw [frame_body_undefined p s img t hl] at he; exact absurd he (List.not_mem_nil _)
  | some r =>
    obtain ⟨evs, d⟩ := r
    rw [frame_body_unfold p s img t evs d hl] at he
    have key : e ∈ evs ++ frame_events p s img t d →
        (p.depth_directories ≠ [] ∧ ∃ dir, e = Event.imread dir (s.frame_count + 1))
        ∨ (∃ d, (p.depth_directories = [] → d = none) ∧ e ∈ frame_events p s img t d)
        ∨ e = Event.reset := by
      intro h
      rcases List.mem_append.mp h with h | h
      · rcases load_depth_cases p s t evs d hl with ⟨hne, _, dir, _, hev⟩ | ⟨_, hev, _⟩
        · rw [hev, List.mem_singleton] at h
          exact Or.inl ⟨hne, dir, h⟩
        · rw [hev] at h
          exact absurd h (List.not_mem_nil _)
      · refine Or.inr (Or.inl ⟨d, ?_, h⟩)
        intro h0
        rcases load_depth_cases p s t evs d hl with ⟨hne, _, _⟩ | ⟨_, _, hd⟩
        · exact absurd h0 hne
        · exact hd
    split_ifs at he
    · rcases List.mem_append.mp he with h | h
      · exact key h
      · rw [List.mem_singleton] at h
        exact Or.inr (Or.inr h)
    · exact key he
    · exact key he

theorem load_depth_views (p : Params) (s : Locals) (t : Tick)
    (h : depth_in_range p s.f_n) :
    ∃ evs d, load_depth p s t = some (evs, d) ∧ marks evs = [] ∧ frame_indices evs = [] := by
  unfold load_depth
  rcases h with h | h
  · simp [use_depth, h, marks, frame_indices]
  · by_cases hu : use_depth p = true
    · obtain ⟨dir, hdir⟩ := Option.isSome_iff_exists.mp h
      simp [hu, hdir, marks, Event.mark, frame_indices, Event.frame_index]
    · simp [hu, marks, frame_indices]

theorem frame_body_no_quit (p : Params) (s : Locals) (img : Image) (t : Tick)
    (hd : depth_in_range p s.f_n) (hq : to_char t.key ≠ key_q) :
    (frame_body p s img t).2 = Flow.next { s with frame_count := s.frame_count + 1 }
    ∧ frame_indices (frame_body p s img t).1 = [s.frame_count]
    ∧ marks (frame_body p s img t).1 =
        Mark.frame s.frame_count :: (if to_char t.key = key_r then [Mark.reset] else []) := by
  obtain ⟨evs, d, hl, hm, hi⟩ := load_depth_views p s t hd
  rw [frame_body_unfold p s img t evs d hl]
  split_ifs with hr
  · refine ⟨rfl, ?_, ?_⟩
    · rw [frame_indices_append, frame_indices_append, hi, frame_indices_frame_events]
      rfl
    · rw [marks_append, marks_append, hm, marks_frame_events]
      rfl
  · refine ⟨rfl, ?_, ?_⟩
    · rw [frame_indices_append, hi, frame_indices_frame_events]
      rfl
    · rw [marks_append, hm, marks_frame_events]
      rfl

theorem frame_loop_nil (p : Params) (s : Locals) : frame_loop p s [] = ([], Flow.next s) := by
  unfold frame_loop
  rfl

theorem frame_loop_cons_next (p : Params) (s : Locals) (img : Image) (t : Tick)
    (rest : List (Image × Tick)) (s' : Locals)
    (h : (frame_body p s img t).2 = Flow.next s') :
    frame_loop p s ((img, t) :: rest) =
      ((frame_body p s img t).1 ++ (frame_loop p s' rest).1, (frame_loop p s' rest).2) := by
  have hb : frame_body p s img t = ((frame_body p s img t).1, Flow.next s') := Prod.ext rfl h
  rw [frame_loop, hb]

theorem frame_loop_cons_stop (p : Params) (s : Locals) (img : Image) (t : Tick)
    (rest : List (Image × Tick)) (o : Outcome)
    (h : (frame_body p s img t).2 = Flow.stop o) :
    frame_loop p s ((img, t) :: rest) = ((frame_body p s img t).1, Flow.stop o) := by
  have hb : frame_body p s img t = ((frame_body p s img t).1, Flow.stop o) := Prod.ext rfl h
  rw [frame_loop, hb]

theorem frame_loop_next (p : Params) :
    ∀ (frames : List (Image × Tick)) (s s' : Locals),
      (frame_loop p s frames).2 = Flow.next s' →
      s'.done = s.done ∧ s'.f_n = s.f_n ∧ s'.cam = s.cam ∧ s'.time_stamp = s.time_stamp := by
  intro frames
  induction frames with
  | nil =>
    intro s s' h
    rw [frame_loop_nil] at h
    cases h
    exact ⟨rfl, rfl, rfl, rfl⟩
  | cons f rest ih =>
    intro s s' h
    obtain ⟨img, t⟩ := f
    cases hb : (frame_body p s img t).2 with
    | next s1 =>
      rw [frame_loop_cons_next p s img t rest s1 hb] at h
      have h1 := frame_body_next p s img t s1 hb
      obtain ⟨a, b, c, d⟩ := ih s1 s' h
      subst h1
      exact ⟨a, b, c, d⟩
    | stop o =>
      rw [frame_loop_cons_stop p s img t rest o hb] at h
      cases h

theorem mem_frame_loop (p : Params) :
    ∀ (frames : List (Image × Tick)) (s : Locals) (e : Event),
      e ∈ (frame_loop p s frames).1 →
      ∃ s' img t, s'.done = s.done ∧ s'.f_n = s.f_n ∧ s'.cam = s.cam
        ∧ s'.time_stamp = s.time_stamp ∧ e ∈ (frame_body p s' img t).1 := by
  intro frames
  induction frames with
  | nil =>
    intro s e he
    rw [frame_loop_nil] at he
    exact absurd he (List.not_mem_nil _)
  | cons f rest ih =>
    intro s e he
    obtain ⟨img, t⟩ := f
    cases hb : (frame_body p s img t).2 with
    | next s1 =>
      rw [frame_loop_cons_next p s img t rest s1 hb] at he
      rcases List.mem_append.mp he with h | h
      · exact ⟨s, img, t, rfl, rfl, rfl, rfl, h⟩
      · have h1 := frame_body_next p s img t s1 hb
        obtain ⟨s', img', t', a, b, c, d, hmem⟩ := ih s1 e h
        subst h1
        exact ⟨s', img', t', a, b, c, d, hmem⟩
    | stop o =>
      rw [frame_loop_cons_stop p s img t rest o hb] at he
      exact ⟨s, img, t, rfl, rfl, rfl, rfl, he⟩

theorem no_quit_cons (f : Image × Tick) (rest : List (Image × Tick))
    (h : no_quit (f :: rest)) : to_char f.2.key ≠ key_q ∧ no_quit rest :=
  ⟨h f (List.mem_cons_self _ _), fun g hg => h g (List.mem_cons_of_mem _ hg)⟩

theorem frame_loop_no_quit (p : Params) :
    ∀ (frames : List (Image × Tick)) (s : Locals),
      depth_in_range p s.f_n → no_quit frames →
      (frame_loop p s frames).2 =
        Flow.next { s with frame_count := s.frame_count + (frames.length : Int) }
      ∧ frame_indices (frame_loop p s frames).1 =
          (List.range frames.length).map (fun (i : Nat) => s.frame_count + (i : Int)) := by
  intro frames
  induction frames with
  | nil =>
    intro s _ _
    rw [frame_loop_nil]
    simp [frame_indices]
  | cons f rest ih =>
    intro s hd hq
    obtain ⟨img, t⟩ := f
    obtain ⟨hq1, hq2⟩ := no_quit_cons _ _ hq
    obtain ⟨hflow, hidx, _⟩ := frame_body_no_quit p s img t hd hq1
    rw [frame_loop_cons_next p s img t rest _ hflow]
    obtain ⟨ih1, ih2⟩ := ih { s with frame_count := s.frame_count + 1 } hd hq2
    refine ⟨?_, ?_⟩
    · rw [ih1]
      simp only [List.length_cons, Nat.cast_add, Nat.cast_one]
      congr 2
      omega
    · rw [frame_indices_append, hidx, ih2]
      simp only [List.length_cons, List.range_succ_eq_map, List.map_cons, List.map_map,
        Nat.cast_zero, add_zero, List.singleton_append, List.cons.injEq, true_and]
      apply List.map_congr_left
      intro i _
      simp only [Function.comp, Nat.cast_succ]
      omega

theorem index_some_of_bounds {α : Type} (v : List α) (i : Int) (h0 : 0 ≤ i)
    (h1 : i < v.length) : ∃ x, index? v i = some x := by
  unfold index?
  rw [if_pos h0]
  have h : i.toNat < v.length := by omega
  exact ⟨v.get ⟨i.toNat, h⟩, List.get?_eq_get h⟩

theorem index_bounds_of_some {α : Type} (v : List α) (i : Int) (x : α)
    (h : index? v i = some x) : 0 ≤ i ∧ i < v.length := by
  unfold index? at h
  split_ifs at h with h0
  have := List.get?_eq_some.mp h
  obtain ⟨hlt, _⟩ := this
  exact ⟨h0, by omega⟩

theorem string_at_some (c : List Char) (k : Nat) (h : k ≤ c.length) :
    ∃ x, string_at c k = some x := by
  unfold string_at
  split_ifs with h1 h2
  · exact ⟨c.get ⟨k, h1⟩, List.get?_eq_get h1⟩
  · exact ⟨_, rfl⟩
  · omega

theorem next_source_cases (p : Params) (s : Locals) (f : Int)
    (h : next_source p s = some f) :
    (p.files = [] ∧ f = 0)
    ∨ (p.files ≠ [] ∧ f = s.f_n + 1 ∧ 0 ≤ f ∧ f < p.files.length) := by
  unfold next_source at h
  split_ifs at h with hl
  · right
    cases hi : index? p.files (s.f_n + 1) with
    | none => simp [hi] at h
    | some x =>
      simp only [hi, Option.some.injEq] at h
      obtain ⟨a, b⟩ := index_bounds_of_some _ _ _ hi
      subst h
      exact ⟨by intro h0; simp [h0] at hl, rfl, a, b⟩
  · left
    simp only [Option.some.injEq] at h
    refine ⟨?_, h.symm⟩
    cases hp : p.files with
    | nil => rfl
    | cons a l => simp [hp] at hl

theorem next_source_of_bounds (p : Params) (s : Locals)
    (h : p.files = [] ∨ (0 ≤ s.f_n + 1 ∧ s.f_n + 1 < p.files.length)) :
    next_source p s = some (if p.files = [] then 0 else s.f_n + 1) := by
  unfold next_source
  by_cases hp : p.files = []
  · simp [hp]
  · rcases h with h | ⟨h0, h1⟩
    · exact absurd h hp
    · obtain ⟨x, hx⟩ := index_some_of_bounds p.files (s.f_n + 1) h0 h1
      have hl : p.files.length > 0 := List.length_pos.mpr hp
      simp [hp, hl, hx]

theorem mem_open_writer (p : Params) (s : Locals) (ci : Option Image) (wev : List Event)
    (h : open_writer p s ci = some wev) (e : Event) (he : e ∈ wev) :
    ∃ path cc c r, e = Event.openWriter path cc c r := by
  unfold open_writer at h
  split_ifs at h with h1
  · split at h
    · simp only [Option.some.injEq] at h
      subst h
      rw [List.mem_singleton] at he
      exact ⟨_, _, _, _, he⟩
    · cases h
  · simp only [Option.some.injEq] at h
    subst h
    exact absurd he (List.not_mem_nil _)

theorem open_writer_of_aligned (p : Params) (s : Locals) (ci : Option Image)
    (hal : p.aligned)
    (hf : (p.files = [] ∧ s.f_n = 0) ∨ (0 ≤ s.f_n ∧ s.f_n < p.files.length)) :
    ∃ wev, open_writer p s ci = some wev := by
  unfold open_writer
  by_cases ho : p.output_video_files = []
  · simp [ho]
  · rcases hal.2 with h | ⟨hlen, hcodec⟩
    · exact absurd h ho
    · have hpos : 0 < p.output_video_files.length := List.length_pos.mpr ho
      have hb : 0 ≤ s.f_n ∧ s.f_n < p.output_video_files.length := by
        rcases hf with ⟨_, h0⟩ | ⟨h0, h1⟩
        · rw [h0]; exact ⟨le_refl _, by exact_mod_cast hpos⟩
        · exact ⟨h0, by omega⟩
      obtain ⟨path, hpath⟩ := index_some_of_bounds p.output_video_files s.f_n hb.1 hb.2
      obtain ⟨c0, h0⟩ := string_at_some p.output_codec 0 (by omega)
      obtain ⟨c1, h1⟩ := string_at_some p.output_codec 1 (by omega)
      obtain ⟨c2, h2⟩ := string_at_some p.output_codec 2 (by omega)
      obtain ⟨c3, h3⟩ := string_at_some p.output_codec 3 (by omega)
      have hne : (!p.output_video_files.isEmpty) = true := by
        cases hp : p.output_video_files with
        | nil => exact absurd hp ho
        | cons a l => rfl
      rw [if_pos hne, hpath, h0, h1, h2, h3]
      exact ⟨_, rfl⟩

theorem depth_in_range_of_aligned (p : Params) (f : Int) (hal : p.aligned)
    (hf : (p.files = [] ∧ f = 0) ∨ (0 ≤ f ∧ f < p.files.length)) :
    depth_in_range p f := by
  by_cases hd : p.depth_directories = []
  · exact Or.inl hd
  · right
    rcases hal.1 with h | hlen
    · exact absurd h hd
    · have hpos : 0 < p.depth_directories.length := List.length_pos.mpr hd
      have hb : 0 ≤ f ∧ f < p.depth_directories.length := by
        rcases hf with ⟨_, h0⟩ | ⟨h0, h1⟩
        · rw [h0]; exact ⟨le_refl _, by exact_mod_cast hpos⟩
        · exact ⟨h0, by omega⟩
      obtain ⟨x, hx⟩ := index_some_of_bounds p.depth_directories f hb.1 hb.2
      rw [hx]
      rfl

theorem source_body_no_source (p : Params) (w : World) (n : Nat) (s : Locals)
    (hf : next_source p s = none) :
    source_body p w n s =
      { f_n := s.f_n + 1, events := [], flow := Flow.stop Outcome.undefined } := by
  unfold source_body
  rw [hf]

theorem source_body_not_open (p : Params) (w : World) (n : Nat) (s : Locals) (f : Int)
    (hf : next_source p s = some f)
    (hc : w.capture n (Source.device p.device) = none) :
    source_body p w n s =
      { f_n := f, events := [Event.openCapture (Source.device p.device)],
        flow := Flow.stop Outcome.abort } := by
  unfold source_body
  rw [hf]
  simp only [hc]

theorem source_body_no_writer (p : Params) (w : World) (n : Nat) (s : Locals) (f : Int)
    (frames : List (Image × Tick))
    (hf : next_source p s = some f)
    (hc : w.capture n (Source.device p.device) = some frames)
    (hw : open_writer p (frame_loop_entry p s f (frames.head?.map Prod.fst))
      (frames.head?.map Prod.fst) = none) :
    source_body p w n s =
      { f_n := f, events := [Event.openCapture (Source.device p.device)],
        flow := Flow.stop Outcome.undefined } := by
  unfold source_body
  rw [hf]
  simp only [hc, hw]

theorem source_body_next (p : Params) (w : World) (n : Nat) (s : Locals) (f : Int)
    (frames : List (Image × Tick)) (wev : List Event) (s' : Locals)
    (hf : next_source p s = some f)
    (hc : w.capture n (Source.device p.device) = some frames)
    (hw : open_writer p (frame_loop_entry p s f (frames.head?.map Prod.fst))
      (frames.head?.map Prod.fst) = some wev)
    (hl : (frame_loop p (frame_loop_entry p s f (frames.head?.map Prod.fst)) frames).2
      = Flow.next s') :
    source_body p w n s =
      { f_n := f,
        events := Event.openCapture (Source.device p.device) :: wev
          ++ (frame_loop p (frame_loop_entry p s f (frames.head?.map Prod.fst)) frames).1
          ++ [Event.reset],
        flow := Flow.next (source_exit p s') } := by
  have hb : frame_loop p (frame_loop_entry p s f (frames.head?.map Prod.fst)) frames
      = ((frame_loop p (frame_loop_entry p s f (frames.head?.map Prod.fst)) frames).1,
          Flow.next s') := Prod.ext rfl hl
  unfold source_body
  rw [hf]
  simp only [hc, hw]
  rw [hb]

theorem source_body_stop (p : Params) (w : World) (n : Nat) (s : Locals) (f : Int)
    (frames : List (Image × Tick)) (wev : List Event) (o : Outcome)
    (hf : next_source p s = some f)
    (hc : w.capture n (Source.device p.device) = some frames)
    (hw : open_writer p (frame_loop_entry p s f (frames.head?.map Prod.fst))
      (frames.head?.map Prod.fst) = some wev)
    (hl : (frame_loop p (frame_loop_entry p s f (frames.head?.map Prod.fst)) frames).2
      = Flow.stop o) :
    source_body p w n s =
      { f_n := f,
        events := Event.openCapture (Source.device p.device) :: wev
          ++ (frame_loop p (frame_loop_entry p s f (frames.head?.map Prod.fst)) frames).1,
        flow := Flow.stop o } := by
  have hb : frame_loop p (frame_loop_entry p s f (frames.head?.map Prod.fst)) frames
      = ((frame_loop p (frame_loop_entry p s f (frames.head?.map Prod.fst)) frames).1,
          Flow.stop o) := Prod.ext rfl hl
  unfold source_body
  rw [hf]
  simp only [hc, hw]
  rw [hb]

theorem source_body_cases (p : Params) (w : World) (n : Nat) (s : Locals) :
    (∃ o, (source_body p w n s).flow = Flow.stop o ∧ (source_body p w n s).events = [])
    ∨ (∃ f o, next_source p s = some f ∧ (source_body p w n s).flow = Flow.stop o
        ∧ (source_body p w n s).events = [Event.openCapture (Source.device p.device)])
    ∨ (∃ f frames wev, next_source p s = some f
        ∧ w.capture n (Source.device p.device) = some frames
        ∧ open_writer p (frame_loop_entry p s f (frames.head?.map Prod.fst))
            (frames.head?.map Prod.fst) = some wev
        ∧ ((∃ s', (frame_loop p (frame_loop_entry p s f (frames.head?.map Prod.fst))
                frames).2 = Flow.next s'
              ∧ source_body p w n s =
                { f_n := f,
                  events := Event.openCapture (Source.device p.device) :: wev
                    ++ (frame_loop p (frame_loop_entry p s f (frames.head?.map Prod.fst))
                        frames).1
                    ++ [Event.reset],
                  flow := Flow.next (source_exit p s') })
          ∨ (∃ o, source_body p w n s =
                { f_n := f,
                  events := Event.openCapture (Source.device p.device) :: wev
                    ++ (frame_loop p (frame_loop_entry p s f (frames.head?.map Prod.fst))
                        frames).1,
                  flow := Flow.stop o }))) := by
  cases hf : next_source p s with
  | none =>
    left
    rw [source_body_no_source p w n s hf]
    exact ⟨_, rfl, rfl⟩
  | some f =>
    right
    cases hc : w.capture n (Source.device p.device) with
    | none =>
      left
      rw [source_body_not_open p w n s f hf hc]
      exact ⟨f, _, rfl, rfl, rfl⟩
    | some frames =>
      cases hw : open_writer p (frame_loop_entry p s f (frames.head?.map Prod.fst))
          (frames.head?.map Prod.fst) with
      | none =>
        left
        rw [source_body_no_writer p w n s f frames hf hc hw]
        exact ⟨f, _, rfl, rfl, rfl⟩
      | some wev =>
        right
        refine ⟨f, frames, wev, rfl, rfl, hw, ?_⟩
        cases hl : (frame_loop p (frame_loop_entry p s f (frames.head?.map Prod.fst))
            frames).2 with
        | next s' =>
          left
          exact ⟨s', rfl, source_body_next p w n s f frames wev s' hf hc hw hl⟩
        | stop o =>
          right
          exact ⟨o, source_body_stop p w n s f frames wev o hf hc hw hl⟩

theorem source_body_flow_next (p : Params) (w : World) (n : Nat) (s s' : Locals)
    (h : (source_body p w n s).flow = Flow.next s') :
    ∃ f sl, next_source p s = some f ∧ s' = source_exit p sl ∧ sl.f_n = f
      ∧ sl.done = s.done ∧ sl.time_stamp = s.time_stamp
      ∧ ∃ ci, sl.cam = resolve_camera p s.cam ci := by
  rcases source_body_cases p w n s with ⟨o, ho, _⟩ | ⟨f, o, _, ho, _⟩ |
    ⟨f, frames, wev, hf, _, _, ⟨sl, hl, hb⟩ | ⟨o, hb⟩⟩
  · rw [ho] at h; cases h
  · rw [ho] at h; cases h
  · rw [hb] at h
    simp only [Flow.next.injEq] at h
    obtain ⟨a, b, c, d⟩ := frame_loop_next p frames _ sl hl
    exact ⟨f, sl, hf, h.symm, b, a, d, _, c⟩
  · rw [hb] at h; cases h

theorem mem_source_body (p : Params) (w : World) (n : Nat) (s : Locals) (e : Event)
    (he : e ∈ (source_body p w n s).events) :
    e = Event.openCapture (Source.device p.device)
    ∨ (∃ path cc c r, e = Event.openWriter path cc c r)
    ∨ e = Event.reset
    ∨ ∃ s' img t, s'.time_stamp = s.time_stamp
        ∧ (∃ ci, s'.cam = resolve_camera p s.cam ci)
        ∧ e ∈ (frame_body p s' img t).1 := by
  have inner : ∀ (f : Int) (frames : List (Image × Tick)) (wev : List Event),
      open_writer p (frame_loop_entry p s f (frames.head?.map Prod.fst))
            (frames.head?.map Prod.fst) = some wev →
      e ∈ Event.openCapture (Source.device p.device) :: wev
          ++ (frame_loop p (frame_loop_entry p s f (frames.head?.map Prod.fst)) frames).1 →
      e = Event.openCapture (Source.device p.device)
      ∨ (∃ path cc c r, e = Event.openWriter path cc c r)
      ∨ e = Event.reset
      ∨ ∃ s' img t, s'.time_stamp = s.time_stamp
          ∧ (∃ ci, s'.cam = resolve_camera p s.cam ci)
          ∧ e ∈ (frame_body p s' img t).1 := by
    intro f frames wev hw h
    rcases List.mem_append.mp h with h | h
    · rcases List.mem_cons.mp h with h | h
      · exact Or.inl h
      · exact Or.inr (Or.inl (mem_open_writer p _ _ wev hw e h))
    · obtain ⟨s', img, t, _, _, c, d, hmem⟩ := mem_frame_loop p frames _ e h
      exact Or.inr (Or.inr (Or.inr ⟨s', img, t, d, ⟨_, c⟩, hmem⟩))
  rcases source_body_cases p w n s with ⟨o, _, hev⟩ | ⟨f, o, _, _, hev⟩ |
    ⟨f, frames, wev, hf, _, hw, ⟨sl, hl, hb⟩ | ⟨o, hb⟩⟩
  · rw [hev] at he; exact absurd he (List.not_mem_nil _)
  · rw [hev, List.mem_singleton] at he; exact Or.inl he
  · rw [hb] at he
    rcases List.mem_append.mp he with h | h
    · exact inner f frames wev hw h
    · rw [List.mem_singleton] at h
      exact Or.inr (Or.inr (Or.inl h))
  · rw [hb] at he
    exact inner f frames wev hw he

theorem source_loop_done (p : Params) (w : World) (fuel n : Nat) (s : Locals)
    (h : s.done = true) :
    source_loop p w (fuel + 1) n s = some { passes := [], outcome := Outcome.exit 0 } := by
  rw [source_loop, if_pos h]

theorem source_loop_step (p : Params) (w : World) (fuel n : Nat) (s s' : Locals)
    (hd : s.done = false) (h : (source_body p w n s).flow = Flow.next s') :
    source_loop p w (fuel + 1) n s =
      (source_loop p w fuel (n + 1) s').map
        (fun r => { passes := source_body p w n s :: r.passes, outcome := r.outcome }) := by
  rw [source_loop, if_neg (by simp [hd])]
  simp only [h]

theorem source_loop_stop (p : Params) (w : World) (fuel n : Nat) (s : Locals) (o : Outcome)
    (hd : s.done = false) (h : (source_body p w n s).flow = Flow.stop o) :
    source_loop p w (fuel + 1) n s =
      some { passes := [source_body p w n s], outcome := o } := by
  rw [source_loop, if_neg (by simp [hd])]
  simp only [h]

theorem last_source_of_empty (p : Params) (s : Locals) (h : p.files = []) :
    last_source p s = true := by
  simp [last_source, h]

theorem last_source_of_bounds (p : Params) (s : Locals) (h0 : 0 ≤ s.f_n)
    (h1 : s.f_n < p.files.length) :
    last_source p s = decide (s.f_n + 1 = p.files.length) := by
  have hne : p.files ≠ [] := by
    intro h
    rw [h] at h1
    simp at h1
    omega
  have hlen : p.files.length ≠ 0 := fun h => hne (List.length_eq_zero.mp h)
  have hemp : p.files.isEmpty = false := by
    cases hp : p.files with
    | nil => exact absurd hp hne
    | cons a l => rfl
  unfold last_source to_size_t size_minus_one
  rw [hemp, if_neg (by omega), if_neg hlen, Bool.or_false]
  by_cases h : s.f_n + 1 = p.files.length
  · have : s.f_n = (p.files.length : Int) - 1 := by omega
    simp [h, this]
  · have : s.f_n ≠ (p.files.length : Int) - 1 := by omega
    simp [h, this]

theorem source_loop_passes (p : Params) (w : World) (I : Locals → Prop)
    (hI : ∀ n s s', I s → (source_body p w n s).flow = Flow.next s' → I s') :
    ∀ (fuel n : Nat) (s : Locals) (r : Run), I s → source_loop p w fuel n s = some r →
      ∀ (i : Nat) (pass : Pass), r.passes.get? i = some pass →
        ∃ si, I si ∧ si.done = false ∧ pass = source_body p w (n + i) si := by
  intro fuel
  induction fuel with
  | zero =>
    intro n s r _ h
    simp [source_loop] at h
  | succ fuel ih =>
    intro n s r hs h i pass hp
    cases hd : s.done with
    | true =>
      rw [source_loop_done p w fuel n s hd] at h
      cases h
      simp at hp
    | false =>
      cases hfl : (source_body p w n s).flow with
      | next s' =>
        rw [source_loop_step p w fuel n s s' hd hfl] at h
        cases hr : source_loop p w fuel (n + 1) s' with
        | none => simp [hr] at h
        | some r' =>
          simp only [hr, Option.map_some', Option.some.injEq] at h
          subst h
          cases i with
          | zero =>
            simp only [List.get?_cons_zero, Option.some.injEq] at hp
            exact ⟨s, hs, hd, by rw [← hp]; rfl⟩
          | succ i =>
            simp only [List.get?_cons_succ] at hp
            obtain ⟨si, h1, h3, h2⟩ := ih (n + 1) s' r' (hI n s s' hs hfl) hr i pass hp
            exact ⟨si, h1, h3, by rw [h2]; congr 1; omega⟩
      | stop o =>
        rw [source_loop_stop p w fuel n s o hd hfl] at h
        cases h
        cases i with
        | zero =>
          simp only [List.get?_cons_zero, Option.some.injEq] at hp
          exact ⟨s, hs, hd, by rw [← hp]; rfl⟩
        | succ i => simp at hp

theorem source_loop_terminates (p : Params) (w : World) :
    ∀ (fuel n : Nat) (s : Locals),
      ((s.done = true ∧ 1 ≤ fuel) ∨ (p.files = [] ∧ 2 ≤ fuel)
        ∨ (p.files ≠ [] ∧ (p.files.length : Int) - 1 - s.f_n < fuel ∧ 1 ≤ fuel)) →
      ∃ r, source_loop p w fuel n s = some r := by
  intro fuel
  induction fuel with
  | zero =>
    intro n s h
    rcases h with ⟨_, h⟩ | ⟨_, h⟩ | ⟨_, _, h⟩ <;> omega
  | succ fuel ih =>
    intro n s h
    cases hd : s.done with
    | true => exact ⟨_, source_loop_done p w fuel n s hd⟩
    | false =>
      cases hfl : (source_body p w n s).flow with
      | stop o => exact ⟨_, source_loop_stop p w fuel n s o hd hfl⟩
      | next s' =>
        rw [source_loop_step p w fuel n s s' hd hfl]
        obtain ⟨f, sl, hf, hs', hfn, hdone, _, _⟩ := source_body_flow_next p w n s s' hfl
        have hrec : ∃ r, source_loop p w fuel (n + 1) s' = some r := by
          apply ih
          rcases next_source_cases p s f hf with ⟨he, _⟩ | ⟨hne, hf1, hf0, hf2⟩
          · left
            refine ⟨?_, ?_⟩
            · rw [hs']
              simp [source_exit, last_source_of_empty p _ he]
            · rcases h with ⟨h, _⟩ | ⟨_, h⟩ | ⟨h, _⟩
              · rw [hd] at h; cases h
              · omega
              · exact absurd he h
          · have hfuel : (p.files.length : Int) - 1 - s.f_n < fuel + 1 := by
              rcases h with ⟨h, _⟩ | ⟨h, _⟩ | ⟨_, h, _⟩
              · rw [hd] at h; cases h
              · exact absurd h hne
              · exact_mod_cast h
            have hfn' : s'.f_n = f := by rw [hs']; exact hfn
            by_cases hlast : f + 1 = p.files.length
            · left
              refine ⟨?_, by omega⟩
              rw [hs']
              have hb := last_source_of_bounds p { sl with frame_count := 0 }
                (by show 0 ≤ sl.f_n; omega) (by show sl.f_n < _; omega)
              simp only [source_exit, hb]
              have : sl.f_n + 1 = p.files.length := by omega
              simp [this]
            · right; right
              exact ⟨hne, by omega, by omega⟩
        obtain ⟨r, hr⟩ := hrec
        exact ⟨_, by rw [hr]; rfl⟩

theorem main_eq_source_loop (fuel : Nat) (p : Params) (w : World)
    (h : w.resources_found) :
    main fuel p w = source_loop p w fuel 0 (initial_locals p) := by
  unfold main
  rw [if_neg (by simp [h.1]), if_neg (by simp [h.2])]

theorem main_no_resources (fuel : Nat) (p : Params) (w : World)
    (h : ¬ w.resources_found) :
    main fuel p w = some { passes := [], outcome := Outcome.exit 1 } := by
  unfold main
  by_cases h1 : (w.tri_cwd || w.tri_parent || w.tri_config) = true
  · have h2 : ¬ (w.au_cwd || w.au_parent || w.au_config) = true := fun h2 => h ⟨h1, h2⟩
    rw [if_neg (by simp [h1]), if_pos (by simpa using h2)]
  · rw [if_pos (by simpa using h1)]

theorem frame_body_marks (p : Params) (s : Locals) (img : Image) (t : Tick)
    (hd : depth_in_range p s.f_n) :
    marks (frame_body p s img t).1 =
      Mark.frame s.frame_count :: (if to_char t.key = key_r then [Mark.reset] else []) := by
  obtain ⟨evs, d, hl, hm, _⟩ := load_depth_views p s t hd
  rw [frame_body_unfold p s img t evs d hl]
  split_ifs with hr hq
  · rw [marks_append, marks_append, hm, marks_frame_events]
    rfl
  · rw [marks_append, hm, marks_frame_events]
    rfl
  · rw [marks_append, hm, marks_frame_events]
    rfl

theorem frame_loop_marks_head (p : Params) (s : Locals) (img : Image) (t : Tick)
    (rest : List (Image × Tick)) (hd : depth_in_range p s.f_n) :
    ∃ tail, marks (frame_loop p s ((img, t) :: rest)).1 =
      Mark.frame s.frame_count :: ((if to_char t.key = key_r then [Mark.reset] else []) ++ tail) := by
  cases hb : (frame_body p s img t).2 with
  | next s1 =>
    rw [frame_loop_cons_next p s img t rest s1 hb, marks_append, frame_body_marks p s img t hd]
    exact ⟨_, rfl⟩
  | stop o =>
    rw [frame_loop_cons_stop p s img t rest o hb, frame_body_marks p s img t hd]
    exact ⟨[], by simp⟩

theorem source_body_cooperative (p : Params) (w : World) (n : Nat) (s : Locals)
    (frames : List (Image × Tick)) (hal : p.aligned)
    (hsrc : p.files = [] ∨ (0 ≤ s.f_n + 1 ∧ s.f_n + 1 < p.files.length))
    (hc : w.capture n (Source.device p.device) = some frames) (hq : no_quit frames) :
    ∃ wev sl,
      source_body p w n s =
        { f_n := if p.files = [] then 0 else s.f_n + 1,
          events := Event.openCapture (Source.device p.device) :: wev
            ++ (frame_loop p (frame_loop_entry p s (if p.files = [] then 0 else s.f_n + 1)
                (frames.head?.map Prod.fst)) frames).1
            ++ [Event.reset],
          flow := Flow.next (source_exit p sl) }
      ∧ sl.f_n = (if p.files = [] then 0 else s.f_n + 1) ∧ sl.done = s.done
      ∧ frame_indices wev = []
      ∧ frame_indices (frame_loop p (frame_loop_entry p s (if p.files = [] then 0 else s.f_n + 1)
                (frames.head?.map Prod.fst)) frames).1
          = (List.range frames.length).map (fun (k : Nat) => (k : Int)) := by
  have hf := next_source_of_bounds p s hsrc
  have hrange : (p.files = [] ∧ (if p.files = [] then 0 else s.f_n + 1) = 0)
      ∨ (0 ≤ (if p.files = [] then 0 else s.f_n + 1)
          ∧ (if p.files = [] then 0 else s.f_n + 1) < p.files.length) := by
    by_cases hp : p.files = []
    · left; simp [hp]
    · right
      rcases hsrc with h | h
      · exact absurd h hp
      · simpa [hp] using h
  generalize (if p.files = [] then 0 else s.f_n + 1) = f at hf hrange ⊢
  obtain ⟨wev, hw⟩ := open_writer_of_aligned p
    (frame_loop_entry p s f (frames.head?.map Prod.fst)) (frames.head?.map Prod.fst) hal hrange
  have hd : depth_in_range p (frame_loop_entry p s f (frames.head?.map Prod.fst)).f_n :=
    depth_in_range_of_aligned p f hal hrange
  obtain ⟨hfl, hidx⟩ := frame_loop_no_quit p frames _ hd hq
  refine ⟨wev, _, source_body_next p w n s f frames wev _ hf hc hw hfl, rfl, rfl, ?_, ?_⟩
  · have : ∀ e ∈ wev, e.frame_index = none := by
      intro e he
      obtain ⟨_, _, _, _, h⟩ := mem_open_writer p _ _ wev hw e he
      rw [h]
      rfl
    unfold frame_indices
    rw [List.filterMap_eq_nil_iff]
    exact this
  · rw [hidx]
    apply List.map_congr_left
    intro k _
    simp [frame_loop_entry]

theorem source_loop_cooperative (p : Params) (w : World) (hal : p.aligned)
    (hw : w.cooperative) :
    ∀ (m fuel n : Nat) (s : Locals), m < fuel → m ≤ p.files.length →
      s.f_n = (p.files.length : Int) - 1 - m → s.done = decide (m = 0) →
      ∃ r, source_loop p w fuel n s = some r ∧ r.outcome = Outcome.exit 0
        ∧ r.passes.map Pass.f_n
            = (List.range m).map (fun (j : Nat) => (p.files.length : Int) - m + j)
        ∧ r.passes.map (fun pass => pass.flow.done)
            = (List.range m).map (fun (j : Nat) => some (decide (j + 1 = m))) := by
  intro m
  induction m with
  | zero =>
    intro fuel n s hfuel _ _ hdone
    obtain ⟨fuel', rfl⟩ : ∃ k, fuel = k + 1 := ⟨fuel - 1, by omega⟩
    refine ⟨_, source_loop_done p w fuel' n s (by simpa using hdone), rfl, ?_, ?_⟩ <;> simp
  | succ m ih =>
    intro fuel n s hfuel hm hfn hdone
    obtain ⟨fuel', rfl⟩ : ∃ k, fuel = k + 1 := ⟨fuel - 1, by omega⟩
    have hd : s.done = false := by simpa using hdone
    have hne : p.files ≠ [] := by
      intro h
      rw [h] at hm
      simp at hm
    have hsrc : p.files = [] ∨ (0 ≤ s.f_n + 1 ∧ s.f_n + 1 < p.files.length) := by
      right
      push_cast at hfn
      omega
    obtain ⟨frames, hc, hq⟩ := hw n (Source.device p.device)
    obtain ⟨wev, sl, hbody, hslf, hsld, _, _⟩ :=
      source_body_cooperative p w n s frames hal hsrc hc hq
    rw [if_neg hne] at hbody hslf
    have hflow : (source_body p w n s).flow = Flow.next (source_exit p sl) := by
      rw [hbody]
    have hlast := last_source_of_bounds p { sl with frame_count := 0 }
      (by show 0 ≤ sl.f_n; omega) (by show sl.f_n < _; omega)
    have hexit_done : (source_exit p sl).done = decide (m = 0) := by
      show (if last_source p { sl with frame_count := 0 } then true else sl.done)
        = decide (m = 0)
      rw [hlast, hsld, hd]
      show (if decide (sl.f_n + 1 = (p.files.length : Int)) = true then true else false)
        = decide (m = 0)
      have : (sl.f_n + 1 = (p.files.length : Int)) ↔ m = 0 := by
        push_cast at hfn
        omega
      by_cases h0 : m = 0
      · simp [h0, this.mpr h0]
      · have : ¬ (sl.f_n + 1 = (p.files.length : Int)) := fun h => h0 (this.mp h)
        simp [h0, this]
    have hexit_fn : (source_exit p sl).f_n = (p.files.length : Int) - 1 - m := by
      show sl.f_n = _
      push_cast at hfn
      omega
    obtain ⟨r, hr, hout, hfns, hdones⟩ :=
      ih fuel' (n + 1) (source_exit p sl) (by omega) (by omega) hexit_fn hexit_done
    refine ⟨{ passes := source_body p w n s :: r.passes, outcome := r.outcome },
      ?_, hout, ?_, ?_⟩
    · rw [source_loop_step p w fuel' n s _ hd hflow, hr]
      rfl
    · simp only [List.map_cons, hfns, List.range_succ_eq_map, List.map_map]
      congr 1
      · rw [hbody]
        push_cast at hfn ⊢
        omega
      · apply List.map_congr_left
        intro j _
        simp only [Function.comp]
        push_cast
        omega
    · simp only [List.map_cons, hdones, List.range_succ_eq_map, List.map_map]
      congr 1
      · rw [hflow]
        simp [Flow.done, hexit_done]
      · apply List.map_congr_left
        intro j _
        simp [Function.comp]

theorem source_bounds_invariant (p : Params) (w : World) (n : Nat) (s s' : Locals)
    (h : (source_body p w n s).flow = Flow.next s') :
    s'.done = false →
      (p.files = [] ∨ (0 ≤ s'.f_n + 1 ∧ s'.f_n + 1 < p.files.length)) := by
  intro hdone
  obtain ⟨f, sl, hf, hs', hfn, _, _, _⟩ := source_body_flow_next p w n s s' h
  rcases next_source_cases p s f hf with ⟨he, _⟩ | ⟨_, _, hf0, hf2⟩
  · exact Or.inl he
  · right
    have hb := last_source_of_bounds p { sl with frame_count := 0 }
      (by show 0 ≤ sl.f_n; omega) (by show sl.f_n < _; omega)
    have hfn' : s'.f_n = f := by rw [hs']; exact hfn
    have hne : ¬ (sl.f_n + 1 = (p.files.length : Int)) := by
      intro heq
      have : (source_exit p sl).done = true := by
        show (if last_source p { sl with frame_count := 0 } then true else sl.done) = true
        rw [hb]
        show (if decide (sl.f_n + 1 = (p.files.length : Int)) = true then true else sl.done)
          = true
        simp [heq]
      rw [hs', this] at hdone
      cases hdone
    omega

theorem source_loop_initial_terminates (p : Params) (w : World) (fuel : Nat)
    (hfuel : max 1 p.files.length < fuel) :
    ∃ r, source_loop p w fuel 0 (initial_locals p) = some r := by
  apply source_loop_terminates
  by_cases hp : p.files = []
  · right; left
    exact ⟨hp, by omega⟩
  · right; right
    refine ⟨hp, ?_, by omega⟩
    show (p.files.length : Int) - 1 - (-1) < fuel
    have : p.files.length < fuel := lt_of_le_of_lt (le_max_right _ _) hfuel
    omega

theorem frame_body_time_stamp (p : Params) (s : Locals) (img : Image) (t : Tick) (e : Event)
    (he : e ∈ (frame_body p s img t).1) (ts : ℚ) (hc : e.time_stamp = some ts) :
    ts = s.time_stamp := by
  rcases mem_frame_body p s img t e he with ⟨_, dir, h⟩ | ⟨d, _, h⟩ | h
  · subst h; cases hc
  · exact frame_events_time_stamp p s img t d e h ts hc
  · subst h; cases hc

theorem frame_body_depth_free (p : Params) (s : Locals) (img : Image) (t : Tick) (e : Event)
    (hp : p.depth_directories = []) (he : e ∈ (frame_body p s img t).1) :
    e.depth_free = true := by
  rcases mem_frame_body p s img t e he with ⟨hne, _⟩ | ⟨d, hd, h⟩ | h
  · exact absurd hp hne
  · rw [hd hp] at h
    exact frame_events_depth_free p s img t e h
  · subst h; rfl

theorem frame_body_not_open (p : Params) (s : Locals) (img : Image) (t : Tick) (e : Event)
    (he : e ∈ (frame_body p s img t).1) : e.opened_source = none := by
  rcases mem_frame_body p s img t e he with ⟨_, dir, h⟩ | ⟨d, _, h⟩ | h
  · subst h; rfl
  · exact frame_events_not_open p s img t d e h
  · subst h; rfl

theorem pass_time_stamp (p : Params) (w : World) (n : Nat) (s : Locals) (e : Event)
    (he : e ∈ (source_body p w n s).events) (ts : ℚ) (hc : e.time_stamp = some ts) :
    ts = s.time_stamp := by
  rcases mem_source_body p w n s e he with h | ⟨_, _, _, _, h⟩ | h | ⟨s', img, t, h1, _, h⟩
  · subst h; cases hc
  · subst h; cases hc
  · subst h; cases hc
  · rw [← h1]
    exact frame_body_time_stamp p s' img t e h ts hc

theorem pass_depth_free (p : Params) (w : World) (n : Nat) (s : Locals) (e : Event)
    (hp : p.depth_directories = []) (he : e ∈ (source_body p w n s).events) :
    e.depth_free = true := by
  rcases mem_source_body p w n s e he with h | ⟨_, _, _, _, h⟩ | h | ⟨s', img, t, _, _, h⟩
  · subst h; rfl
  · subst h; rfl
  · subst h; rfl
  · exact frame_body_depth_free p s' img t e hp h

theorem pass_opened_source (p : Params) (w : World) (n : Nat) (s : Locals) (e : Event)
    (he : e ∈ (source_body p w n s).events) (src : Source)
    (hc : e.opened_source = some src) : src = Source.device p.device := by
  rcases mem_source_body p w n s e he with h | ⟨_, _, _, _, h⟩ | h | ⟨s', img, t, _, _, h⟩
  · subst h
    exact (Option.some.inj hc).symm
  · subst h; cases hc
  · subst h; cases hc
  · rw [frame_body_not_open p s' img t e h] at hc
    cases hc

theorem mem_run_events (r : Run) (e : Event) (he : e ∈ r.events) :
    ∃ i pass, r.passes.get? i = some pass ∧ e ∈ pass.events := by
  unfold Run.events at he
  rw [List.mem_flatten] at he
  obtain ⟨l, hl, hel⟩ := he
  obtain ⟨pass, hpass, rfl⟩ := List.mem_map.mp hl
  obtain ⟨i, hi⟩ := List.mem_iff_get?.mp hpass
  exact ⟨i, pass, hi, hel⟩

theorem main_terminates (p : Params) (w : World) (fuel : Nat)
    (hfuel : max 1 p.files.length < fuel) : ∃ r, main fuel p w = some r := by
  by_cases h : w.resources_found
  · rw [main_eq_source_loop fuel p w h]
    exact source_loop_initial_terminates p w fuel hfuel
  · exact ⟨_, main_no_resources fuel p w h⟩

theorem main_passes (p : Params) (w : World) (I : Locals → Prop)
    (hI : ∀ n s s', I s → (source_body p w n s).flow = Flow.next s' → I s')
    (h0 : I (initial_locals p)) (fuel : Nat) (r : Run) (hr : main fuel p w = some r)
    (i : Nat) (pass : Pass) (hp : r.passes.get? i = some pass) :
    ∃ si, I si ∧ si.done = false ∧ pass = source_body p w i si := by
  by_cases h : w.resources_found
  · rw [main_eq_source_loop fuel p w h] at hr
    have := source_loop_passes p w I hI fuel 0 (initial_locals p) r h0 hr i pass hp
    rwa [Nat.zero_add] at this
  · rw [main_no_resources fuel p w h] at hr
    cases hr
    simp at hp

theorem vis_certainty_unclamped_above_boundary : vis_certainty 1 = 5 / 3 := by
  decide!

theorem time_stamp_invariant (p : Params) (w : World) (n : Nat) (s s' : Locals)
    (hs : s.time_stamp = 0) (h : (source_body p w n s).flow = Flow.next s') :
    s'.time_stamp = 0 := by
  obtain ⟨f, sl, _, hs', _, _, hts, _⟩ := source_body_flow_next p w n s s' h
  rw [hs']
  show sl.time_stamp = 0
  rw [hts, hs]

theorem source_loop_stop_pass (p : Params) (w : World) :
    ∀ (fuel n : Nat) (s : Locals) (r : Run), source_loop p w fuel n s = some r →
      ∀ (i : Nat) (pass : Pass) (o : Outcome), r.passes.get? i = some pass →
        pass.flow = Flow.stop o → r.outcome = o ∧ r.passes.length = i + 1 := by
  intro fuel
  induction fuel with
  | zero =>
    intro n s r h
    simp [source_loop] at h
  | succ fuel ih =>
    intro n s r h i pass o hp ho
    cases hd : s.done with
    | true =>
      rw [source_loop_done p w fuel n s hd] at h
      cases h
      simp at hp
    | false =>
      cases hfl : (source_body p w n s).flow with
      | next s' =>
        rw [source_loop_step p w fuel n s s' hd hfl] at h
        cases hr : source_loop p w fuel (n + 1) s' with
        | none => simp [hr] at h
        | some r' =>
          simp only [hr, Option.map_some', Option.some.injEq] at h
          subst h
          cases i with
          | zero =>
            simp only [List.get?_cons_zero, Option.some.injEq] at hp
            rw [← hp, hfl] at ho
            cases ho
          | succ i =>
            simp only [List.get?_cons_succ] at hp
            obtain ⟨h1, h2⟩ := ih (n + 1) s' r' hr i pass o hp ho
            exact ⟨h1, by simp [h2]⟩
      | stop o' =>
        rw [source_loop_stop p w fuel n s o' hd hfl] at h
        cases h
        cases i with
        | zero =>
          simp only [List.get?_cons_zero, Option.some.injEq] at hp
          rw [← hp, hfl] at ho
          cases ho
          exact ⟨rfl, rfl⟩
        | succ i => simp at hp

theorem initial_bounds (p : Params) :
    (initial_locals p).done = false →
      (p.files = [] ∨ (0 ≤ (initial_locals p).f_n + 1
        ∧ (initial_locals p).f_n + 1 < p.files.length)) := by
  intro _
  by_cases hp : p.files = []
  · exact Or.inl hp
  · right
    have : 0 < p.files.length := List.length_pos.mpr hp
    exact ⟨by simp [initial_locals], by simp [initial_locals]; omega⟩

/-- Every capture that any run of `main` opens is the device, whatever the
list of files. -/
theorem every_capture_is_the_device (p : Params) (w : World) (fuel : Nat) (r : Run)
    (hr : main fuel p w = some r) :
    ∀ src ∈ opened_sources r.events, src = Source.device p.device := by
  intro src hsrc
  unfold opened_sources at hsrc
  obtain ⟨e, he, hes⟩ := List.mem_filterMap.mp hsrc
  obtain ⟨i, pass, hp, hmem⟩ := mem_run_events r e he
  obtain ⟨si, _, _, hb⟩ := main_passes p w (fun _ => True) (fun _ _ _ _ _ => trivial) trivial
    fuel r hr i pass hp
  rw [hb] at hmem
  exact pass_opened_source p w i si e hmem src hes

/-- The timestamp handed to `AddNextFrame` is 0 in every call of every run:
`time_stamp` is initialised to 0 and never assigned. -/
theorem time_stamp_never_advances (p : Params) (w : World) (fuel : Nat) (r : Run)
    (hr : main fuel p w = some r) : ∀ ts ∈ time_stamps r.events, ts = 0 := by
  intro ts hts
  unfold time_stamps at hts
  obtain ⟨e, he, hes⟩ := List.mem_filterMap.mp hts
  obtain ⟨i, pass, hp, hmem⟩ := mem_run_events r e he
  obtain ⟨si, hI, _, hb⟩ := main_passes p w (fun s => s.time_stamp = 0)
    (fun n s s' hs h => time_stamp_invariant p w n s s' hs h) rfl fuel r hr i pass hp
  rw [hb] at hmem
  rw [pass_time_stamp p w i si e hmem ts hes, hI]

/-! ## The loops taken by themselves -/

/-- The control of the loop `while (!done)` taken by itself: with `n` files,
when every capture that is asked for opens (the device included, which is
what line 317 asks for) and no quit key is pressed, the loop makes `n` passes
with `f_n = 0, ..., n-1`, sets `done` in the last one and returns 0. -/
theorem loop_visits_every_source_when_device_opens (p : Params) (w : World) (fuel : Nat)
    (hfiles : p.files ≠ []) (hal : p.aligned) (hw : w.cooperative)
    (hfuel : p.files.length < fuel) :
    ∃ r, source_loop p w fuel 0 (initial_locals p) = some r
      ∧ (w.resources_found → main fuel p w = some r)
      ∧ r.passes.map Pass.f_n = (List.range p.files.length).map (fun (i : Nat) => (i : Int))
      ∧ (∀ pass ∈ r.passes, (index? p.files pass.f_n).isSome = true)
      ∧ r.passes.map (fun pass => pass.flow.done)
          = (List.range p.files.length).map
              (fun (i : Nat) => some (decide (i + 1 = p.files.length)))
      ∧ r.outcome = Outcome.exit 0 := by
  have hlen : p.files.length ≠ 0 := fun h => hfiles (List.length_eq_zero.mp h)
  obtain ⟨r, hr, hout, hfns, hdones⟩ :=
    source_loop_cooperative p w hal hw p.files.length fuel 0 (initial_locals p) hfuel
      (le_refl _) (by simp [initial_locals]) (by simp [initial_locals, hlen])
  have hfns' : r.passes.map Pass.f_n
      = (List.range p.files.length).map (fun (i : Nat) => (i : Int)) := by
    rw [hfns]
    apply List.map_congr_left
    intro j _
    omega
  refine ⟨r, hr, fun hres => by rw [main_eq_source_loop fuel p w hres, hr], hfns', ?_,
    hdones, hout⟩
  intro pass hpass
  have hmem : pass.f_n ∈ r.passes.map Pass.f_n := List.mem_map_of_mem _ hpass
  rw [hfns'] at hmem
  obtain ⟨i, hi, hi'⟩ := List.mem_map.mp hmem
  rw [List.mem_range] at hi
  obtain ⟨x, hx⟩ := index_some_of_bounds p.files pass.f_n (by omega) (by omega)
  rw [hx]
  rfl

/-- The frame counter taken by itself: in every pass whose capture, the one
opened from the device, delivers `k` frames without the quit key,
`visualise_tracking` is entered with the frame counters `0, ..., k-1`, the
last call of the pass is the `Reset` of the detector, and the pass ends with
`frame_count = 0`. -/
theorem frame_counter_restarts_with_each_capture (p : Params) (w : World) (fuel : Nat)
    (hal : p.aligned) (hfuel : max 1 p.files.length < fuel) :
    ∃ r, main fuel p w = some r ∧
      ∀ (i : Nat) (pass : Pass) (frames : List (Image × Tick)),
        r.passes.get? i = some pass →
        w.capture i (Source.device p.device) = some frames →
        no_quit frames →
          frame_indices pass.events
            = (List.range frames.length).map (fun (k : Nat) => (k : Int))
          ∧ pass.events.getLast? = some Event.reset
          ∧ pass.flow.frame_count = some 0 := by
  obtain ⟨r, hr⟩ := main_terminates p w fuel hfuel
  refine ⟨r, hr, ?_⟩
  intro i pass frames hpass hcap hq
  obtain ⟨si, hI, hdone, hbody⟩ := main_passes p w
    (fun s => s.done = false →
      (p.files = [] ∨ (0 ≤ s.f_n + 1 ∧ s.f_n + 1 < p.files.length)))
    (fun n s s' _ h => source_bounds_invariant p w n s s' h)
    (initial_bounds p) fuel r hr i pass hpass
  obtain ⟨wev, sl, hb, _, _, hwev, hidx⟩ :=
    source_body_cooperative p w i si frames hal (hI hdone) hcap hq
  rw [hbody, hb]
  refine ⟨?_, ?_, rfl⟩
  · show frame_indices (Event.openCapture (Source.device p.device) :: wev ++ _ ++ [Event.reset])
      = _
    rw [frame_indices_append, frame_indices_append, hidx]
    show frame_indices wev ++ _ ++ [] = _
    rw [hwev]
    simp
  · exact List.getLast?_concat _

/-- When the capture of a pass fails to open, that pass makes no other call
(no detection, gaze, action-unit, display, writer or network call), it is
the last pass, and the run is ended by `abort()` inside `FATAL_STREAM`,
before the `return 1` of line 322. When it is the first capture that fails,
the attempt to open it is the only call of the whole run. -/
theorem failed_open_makes_no_further_call (p : Params) (w : World) (fuel : Nat)
    (hfuel : max 1 p.files.length < fuel) :
    ∃ r, main fuel p w = some r
      ∧ (∀ (i : Nat) (pass : Pass), r.passes.get? i = some pass →
          w.capture i (Source.device p.device) = none →
            pass.events = [Event.openCapture (Source.device p.device)]
            ∧ pass.flow = Flow.stop Outcome.abort
            ∧ r.passes.length = i + 1
            ∧ r.outcome = Outcome.abort)
      ∧ (w.resources_found → w.capture 0 (Source.device p.device) = none →
          r.events = [Event.openCapture (Source.device p.device)]
          ∧ r.outcome = Outcome.abort) := by
  obtain ⟨r, hr⟩ := main_terminates p w fuel hfuel
  have pass_fact : ∀ (i : Nat) (pass : Pass), r.passes.get? i = some pass →
      w.capture i (Source.device p.device) = none →
        pass.events = [Event.openCapture (Source.device p.device)]
        ∧ pass.flow = Flow.stop Outcome.abort
        ∧ r.passes.length = i + 1
        ∧ r.outcome = Outcome.abort := by
    intro i pass hp hcap
    obtain ⟨si, hI, hdone, hb⟩ := main_passes p w
      (fun s => s.done = false →
        (p.files = [] ∨ (0 ≤ s.f_n + 1 ∧ s.f_n + 1 < p.files.length)))
      (fun n s s' _ h => source_bounds_invariant p w n s s' h)
      (initial_bounds p) fuel r hr i pass hp
    have hf := next_source_of_bounds p si (hI hdone)
    have hbody := source_body_not_open p w i si _ hf hcap
    have hres : w.resources_found := by
      by_contra hno
      rw [main_no_resources fuel p w hno] at hr
      cases hr
      simp at hp
    rw [main_eq_source_loop fuel p w hres] at hr
    have hflow : pass.flow = Flow.stop Outcome.abort := by rw [hb, hbody]
    obtain ⟨h1, h2⟩ := source_loop_stop_pass p w fuel 0 (initial_locals p) r hr i pass _ hp hflow
    exact ⟨by rw [hb, hbody], hflow, h2, h1⟩
  refine ⟨r, hr, pass_fact, ?_⟩
  intro hres hcap
  rw [main_eq_source_loop fuel p w hres] at hr
  obtain ⟨k, rfl⟩ : ∃ k, fuel = k + 1 := ⟨fuel - 1, by omega⟩
  have hf := next_source_of_bounds p (initial_locals p) (initial_bounds p rfl)
  have hbody := source_body_not_open p w 0 (initial_locals p) _ hf hcap
  have hflow : (source_body p w 0 (initial_locals p)).flow = Flow.stop Outcome.abort := by
    rw [hbody]
  rw [source_loop_stop p w k 0 (initial_locals p) _ rfl hflow] at hr
  cases hr
  refine ⟨?_, rfl⟩
  show ([source_body p w 0 (initial_locals p)].map Pass.events).flatten = _
  rw [hbody]
  rfl

/-! ## The claims -/

/-- C1 (the code departs from it): with two input files that can both be
read, hold one frame each and see no quit key, on a machine without a
camera, the loop `while (!done)` of `main` does not make two passes and
return 0: its first pass asks for device 0 instead of `files[0]`, the open
fails, `done` is never set, and the run is ended by `abort()` after that
single pass. -/
theorem listed_files_open_but_loop_aborts :
    (∀ n path, files_without_camera.capture n (Source.file path) = some (idle_frames 1))
    ∧ no_quit (idle_frames 1)
    ∧ source_loop two_files files_without_camera 3 0 (initial_locals two_files)
        = some { passes := [{ f_n := 0,
                              events := [Event.openCapture (Source.device 0)],
                              flow := Flow.stop Outcome.abort }],
                 outcome := Outcome.abort }
    ∧ main 3 two_files files_without_camera
        = some { passes := [{ f_n := 0,
                              events := [Event.openCapture (Source.device 0)],
                              flow := Flow.stop Outcome.abort }],
                 outcome := Outcome.abort } :=
  ⟨fun _ _ => rfl, by decide, by decide!, by decide!⟩

/-- C2 (the code departs from it): with the single input file `video.avi`
on a machine where that file can be read but no camera is attached, `main`
constructs its one `cv::VideoCapture` from device 0, not from the file, and
aborts; with two input files and captures that open, both passes open
device 0. -/
theorem capture_is_opened_from_device_not_file :
    files_without_camera.capture 0 (Source.file "video.avi") = some (idle_frames 1)
    ∧ main 2 one_file files_without_camera
        = some { passes := [{ f_n := 0,
                              events := [Event.openCapture (Source.device 0)],
                              flow := Flow.stop Outcome.abort }],
                 outcome := Outcome.abort }
    ∧ (main 3 two_files two_streams).map (fun r => opened_sources r.events)
        = some [Source.device 0, Source.device 0] := by
  refine ⟨rfl, ?_, ?_⟩ <;> decide!

/-- C3 (the code departs from it): with two input files of which the first
holds five frames, on a machine whose camera delivers nine frames, the first
pass of `main` does not process the frame counters 0 to 4 of the file: it
opens the device and processes its frames under the counters 0 to 8, and so
does the second pass. -/
theorem frame_counters_follow_device_not_file :
    camera_nine_frames.capture 0 (Source.file "first.avi") = some (idle_frames 5)
    ∧ camera_nine_frames.capture 1 (Source.file "second.avi") = some (idle_frames 1)
    ∧ (main 3 two_files camera_nine_frames).map
          (fun r => r.passes.map (fun pass => frame_indices pass.events))
        = some [[0, 1, 2, 3, 4, 5, 6, 7, 8], [0, 1, 2, 3, 4, 5, 6, 7, 8]] :=
  ⟨rfl, rfl, by decide!⟩

/-- C4: when the restart key `r` is seen in the pass of the frame loop that
processes the frame with counter `k`, that pass ends with a `Reset` of the
detector and changes no local of `main` except `frame_count`, which becomes
`k + 1`; in particular `f_n` is unchanged. If a next frame exists, it is the
next to be processed and is processed with counter `k + 1`. -/
theorem restart_keeps_frame_counter (p : Params) (s : Locals) (img img' : Image)
    (t t' : Tick) (rest : List (Image × Tick))
    (hd : depth_in_range p s.f_n) (hr : to_char t.key = key_r) :
    (frame_body p s img t).2 = Flow.next { s with frame_count := s.frame_count + 1 }
    ∧ (frame_body p s img t).1.getLast? = some Event.reset
    ∧ ∃ tail, marks (frame_loop p s ((img, t) :: (img', t') :: rest)).1
        = Mark.frame s.frame_count :: Mark.reset :: Mark.frame (s.frame_count + 1) :: tail := by
  obtain ⟨evs, d, hl, _, _⟩ := load_depth_views p s t hd
  have hb := frame_body_unfold p s img t evs d hl
  rw [if_pos hr] at hb
  have hflow : (frame_body p s img t).2
      = Flow.next { s with frame_count := s.frame_count + 1 } := by rw [hb]
  refine ⟨hflow, ?_, ?_⟩
  · rw [hb]
    simp
  · rw [frame_loop_cons_next p s img t _ _ hflow, marks_append, frame_body_marks p s img t hd,
      if_pos hr]
    obtain ⟨tail, htail⟩ := frame_loop_marks_head p
      { s with frame_count := s.frame_count + 1 } img' t' rest hd
    rw [htail]
    exact ⟨_, rfl⟩

/-- Witness for C4: the restart key while the frame with counter 7 is
processed; the next frame is processed with counter 8. -/
theorem restart_keeps_frame_counter_witness :
    depth_in_range two_files mid_source.f_n ∧ to_char (tick 114).key = key_r
    ∧ ((frame_body two_files mid_source vga_frame (tick 114)).2
          = Flow.next { mid_source with frame_count := mid_source.frame_count + 1 }
        ∧ (frame_body two_files mid_source vga_frame (tick 114)).1.getLast?
            = some Event.reset
        ∧ ∃ tail, marks (frame_loop two_files mid_source
              ((vga_frame, tick 114) :: (vga_frame, tick (-1)) :: [])).1
            = Mark.frame mid_source.frame_count :: Mark.reset
                :: Mark.frame (mid_source.frame_count + 1) :: tail)
    ∧ (main 2 no_files restart_stream).map (fun r => marks r.events)
        = some [Mark.opened, Mark.frame 0, Mark.frame 1, Mark.frame 2, Mark.frame 3,
            Mark.frame 4, Mark.frame 5, Mark.frame 6, Mark.frame 7, Mark.reset,
            Mark.frame 8, Mark.reset] :=
  ⟨by decide, by decide,
    restart_keeps_frame_counter two_files mid_source vga_frame vga_frame (tick 114)
      (tick (-1)) [] (by decide) (by decide),
    by decide!⟩

/-- C5 (the code departs from it): with no input file and no camera, `main`
makes no call besides the attempt to open the device, but it does not return
1: `FATAL_STREAM` ends the run by `abort()` before the `return 1` of line 322
is reached. -/
theorem failed_open_does_not_return_one :
    main 2 no_files no_camera
        = some { passes := [{ f_n := 0,
                              events := [Event.openCapture (Source.device 0)],
                              flow := Flow.stop Outcome.abort }],
                 outcome := Outcome.abort }
    ∧ ¬ ∃ r, main 2 no_files no_camera = some r ∧ r.outcome = Outcome.exit 1 := by
  have h : main 2 no_files no_camera
        = some { passes := [{ f_n := 0,
                              events := [Event.openCapture (Source.device 0)],
                              flow := Flow.stop Outcome.abort }],
                 outcome := Outcome.abort } := by decide!
  refine ⟨h, ?_⟩
  rintro ⟨r, hr, ho⟩
  rw [h] at hr
  cases hr
  cases ho

/-- C8: whenever `visualise_tracking` draws the box, that is whenever the
detection certainty `c` reaches the normalisation, the colour it passes to
`DrawBox` is `((1 - v) * 255, 0, v * 255)` for `v` the certainty clamped to
`[-1, 1]` and normalised, `v` lies in `[0, 1]`, and both channels lie in
`[0, 255]`. -/
theorem box_colour_within_range (img : Image) (d : Option Nat) (c : ℚ)
    (succ eye tg q : Bool) (k : Int) (cam cam' : Intrinsics) (blue green red : ℚ)
    (thickness : Int)
    (he : Event.drawBox blue green red thickness cam'
      ∈ visualise_tracking img d c succ eye tg q k cam) :
    blue = (1 - vis_certainty c) * 255 ∧ red = vis_certainty c * 255
    ∧ 0 ≤ vis_certainty c ∧ vis_certainty c ≤ 1
    ∧ 0 ≤ blue ∧ blue ≤ 255 ∧ 0 ≤ red ∧ red ≤ 255 := by
  have hcases := mem_visualise_tracking img d c succ eye tg q k cam _ he
  have hbox : c < visualisation_boundary
      ∧ Event.drawBox blue green red thickness cam'
        = Event.drawBox ((1 - vis_certainty c) * 255) 0 (vis_certainty c * 255)
            (box_thickness img.cols) cam := by
    rcases hcases with h | h | h | h | h | h | h | h | ⟨_, h⟩
    · cases h
    · cases h
    · cases h
    · exact h
    · cases h
    · cases h
    · cases h
    · cases h
    · cases h
  obtain ⟨hc, heq⟩ := hbox
  have hb : blue = (1 - vis_certainty c) * 255 := by injection heq
  have hr : red = vis_certainty c * 255 := by injection heq
  have hv : 0 ≤ vis_certainty c ∧ vis_certainty c ≤ 1 := by
    unfold visualisation_boundary at hc
    unfold vis_certainty visualisation_boundary
    simp only []
    have h1 : ¬ c > 1 := by
      intro h
      linarith
    rw [if_neg h1]
    split_ifs with h2
    · norm_num
    · constructor
      · apply div_nonneg <;> linarith
      · rw [div_le_one (by norm_num)]
        linarith
  obtain ⟨hv0, hv1⟩ := hv
  refine ⟨hb, hr, hv0, hv1, ?_, ?_, ?_, ?_⟩
  · rw [hb]; nlinarith
  · rw [hb]; nlinarith
  · rw [hr]; nlinarith
  · rw [hr]; nlinarith

/-- Witness for C8: the certainty `-3`, outside `[-1, 1]`, is clamped to
`-1` and gives the intensity 0: the box is drawn with the colour
`(255, 0, 0)`. -/
theorem box_colour_within_range_witness :
    Event.drawBox 255 0 0 2 mid_source.cam
      ∈ visualise_tracking vga_frame none (-3) true true true false 7 mid_source.cam
    ∧ ((255 : ℚ) = (1 - vis_certainty (-3)) * 255 ∧ (0 : ℚ) = vis_certainty (-3) * 255
      ∧ 0 ≤ vis_certainty (-3) ∧ vis_certainty (-3) ≤ 1
      ∧ (0 : ℚ) ≤ 255 ∧ (255 : ℚ) ≤ 255 ∧ (0 : ℚ) ≤ 0 ∧ (0 : ℚ) ≤ 255) :=
  ⟨by decide!,
    box_colour_within_range vga_frame none (-3) true true true false 7 mid_source.cam
      mid_source.cam 255 0 0 2 (by decide!)⟩

/-- C9: when no depth directory is configured, no run of `main` ever calls
`cv::imread` for a depth file or shows the depth window, and every call of
`DetectLandmarksInVideo` and of `visualise_tracking` is given an empty depth
image. -/
theorem no_depth_without_depth_directory (p : Params) (w : World) (fuel : Nat)
    (hp : p.depth_directories = []) (hfuel : max 1 p.files.length < fuel) :
    ∃ r, main fuel p w = some r
      ∧ (∀ dir k, Event.imread dir k ∉ r.events)
      ∧ (∀ g d, Event.detect g d ∈ r.events → d = none)
      ∧ (∀ k d c, Event.visualise k d c ∈ r.events → d = none)
      ∧ Event.imshowDepth ∉ r.events := by
  obtain ⟨r, hr⟩ := main_terminates p w fuel hfuel
  have key : ∀ e ∈ r.events, e.depth_free = true := by
    intro e he
    obtain ⟨i, pass, hpass, hmem⟩ := mem_run_events r e he
    obtain ⟨si, _, _, hb⟩ := main_passes p w (fun _ => True) (fun _ _ _ _ _ => trivial)
      trivial fuel r hr i pass hpass
    rw [hb] at hmem
    exact pass_depth_free p w i si e hp hmem
  refine ⟨r, hr, ?_, ?_, ?_, ?_⟩
  · intro dir k h
    have := key _ h
    simp [Event.depth_free] at this
  · intro g d h
    have := key _ h
    simpa [Event.depth_free] using this
  · intro k d c h
    have := key _ h
    simpa [Event.depth_free] using this
  · intro h
    have := key _ h
    simp [Event.depth_free] at this

/-- Witness for C9: two files and no depth directory. -/
theorem no_depth_without_depth_directory_witness :
    two_files.depth_directories = [] ∧ max 1 two_files.files.length < 3
    ∧ ∃ r, main 3 two_files two_streams = some r
      ∧ (∀ dir k, Event.imread dir k ∉ r.events)
      ∧ (∀ g d, Event.detect g d ∈ r.events → d = none)
      ∧ (∀ k d c, Event.visualise k d c ∈ r.events → d = none)
      ∧ Event.imshowDepth ∉ r.events :=
  ⟨rfl, by decide,
    no_depth_without_depth_directory two_files two_streams 3 rfl (by decide)⟩

/-- C10 (the code departs from it): on two captures of five frames and one
frame, all six calls of `AddNextFrame` get the timestamp 0; consecutive
frames do not differ by a positive interval. -/
theorem time_stamp_is_constant :
    (main 3 two_files two_streams).map (fun r => time_stamps r.events)
      = some [0, 0, 0, 0, 0, 0] := by
  decide!

end FaceLandmarkVid
